import Mathlib

/-!
Shallow embedding of `src/Coursework/PSO/pswarm.py` (classes `PSO` and
`Particle`) and a verification of the specification's claims about it.

Modelling conventions:

* Python floats are modelled as `ℚ` (exact arithmetic on the reals the spec
  talks about).
* Both of Python's random sources (`random` and `np.random`) are modelled by
  one abstract stream `u : Nat → ℚ` of unit draws together with a running
  counter `k : Nat`: the call `random.uniform(a, b)` consumes the draw `u k`
  and returns `a + (b - a) * u k`, advancing the counter.  A well-formed
  stream (`uWF`) has every draw in `[0, 1]`.
* Particles are mutated in place in Python; here every phase takes the swarm
  (a `List Particle`, processed front to back exactly as the Python `for`
  loops do) and returns the updated swarm.  Informant references are
  modelled by indices into the swarm list, read from the current state of
  the list at scan time, like the Python object references.
* Python exceptions are modelled by an `Option Err` flag returned together
  with the state as it is at the moment the exception propagates (all
  mutations performed before the raise are kept, as in Python).
* `FitnessLoc`'s comparison operators and the `TerminationPolicyManager`
  live in the `psobehaviour` module, which is not part of the repository
  snapshot under `src/`; they are modelled from the spec where marked.
* `self.fitness_fn` is modelled as an explicit (total) function argument
  `fn : List ℚ → ℚ`, so the `fitness_fn is None` check of
  `_instantiate_particles` cannot fire and is not modelled.
-/

namespace PSwarm

/-- `FitnessLoc` pairs a location vector with its fitness scalar. -/
structure FitnessLoc where
  location : List ℚ
  fitness : ℚ
deriving DecidableEq, Repr

/-- Modelled from the spec: the `FitnessLoc` class of the `psobehaviour`
module (not under `src/`) is totally ordered by `fitness` alone,
so `a > b` holds iff `b.fitness < a.fitness`. -/
def FitnessLoc.gtb (a b : FitnessLoc) : Bool := decide (b.fitness < a.fitness)

/-- The boundary-policy enum of the `psobehaviour` module. -/
inductive BoundaryPolicy
  | RANDOMREINIT
  | REFUSE
  | BOUNCE
deriving DecidableEq, Repr

/-- The Python exceptions the embedded code can raise. -/
inductive Err
  | notImplemented
  | typeError
  | indexError
  | attributeError
  | valueError
deriving DecidableEq, Repr

/-- One particle (class `Particle`, pswarm.py:290-348).  `informants` holds
indices into the swarm list, standing for the Python object references.
Python initialises `informants` to `None`; it is always assigned by
`set_informants` before any use, so the embedding starts it at `[]`. -/
structure Particle where
  position : List ℚ
  velocity : List ℚ
  fitness_loc : Option FitnessLoc
  personal_fittest_loc : Option FitnessLoc
  informants : List Nat
  velocity_list : List (List ℚ)
deriving DecidableEq, Repr

/-- The mutable state and configuration of a `PSO` object (pswarm.py:39-62). -/
structure PSO where
  swarm_size : Nat
  num_informants : Nat
  boundary : ℚ × ℚ
  alpha : ℚ
  beta : ℚ
  gamma : ℚ
  delta : ℚ
  epsilon : ℚ
  boundary_policy : BoundaryPolicy
  search_dimension : List (ℚ × ℚ)
  search_dimension_set : Bool
  best : Option FitnessLoc
  previous_best : Option FitnessLoc
  particles : List Particle
deriving DecidableEq, Repr

/-- `random.uniform(a, b)` applied to the unit draw `x`. -/
def uniform (a b x : ℚ) : ℚ := a + (b - a) * x

/-- `not any(particle.velocity != 0)` (pswarm.py:144, 160, 179): true iff
every component of the velocity vector is exactly zero. -/
def Particle.isFrozen (p : Particle) : Bool := p.velocity.all fun v => v == 0

/-- `Particle.assess_fitness` (pswarm.py:333-349): evaluate the fitness
function at the current position, record it in `fitness_loc`, and update
`personal_fittest_loc` on strict improvement. -/
def Particle.assess_fitness (fn : List ℚ → ℚ) (p : Particle) :
    FitnessLoc × Particle :=
  let fl : FitnessLoc := ⟨p.position, fn p.position⟩
  let pb0 := match p.personal_fittest_loc with
    | none => fl
    | some old => old
  let pb1 := if FitnessLoc.gtb fl pb0 then fl else pb0
  (fl, { p with fitness_loc := some fl, personal_fittest_loc := some pb1 })

/-- The body of `PSO._pso_assess_fitness` (pswarm.py:138-151): sweep the
swarm front to back, skipping frozen particles, assessing the rest and
promoting `best`/`previous_best` on strict improvement. -/
def assessList (fn : List ℚ → ℚ) :
    List Particle → Option FitnessLoc → Option FitnessLoc →
    List Particle × Option FitnessLoc × Option FitnessLoc
  | [], best, prev => ([], best, prev)
  | p :: ps, best, prev =>
    if p.isFrozen then
      let r := assessList fn ps best prev
      (p :: r.1, r.2)
    else
      let a := p.assess_fitness fn
      let improves : Bool := match best with
        | none => true
        | some b => FitnessLoc.gtb a.1 b
      let best1 := if improves then some a.1 else best
      let prev1 := if improves then best else prev
      let r := assessList fn ps best1 prev1
      (a.2 :: r.1, r.2)

/-- `PSO._pso_assess_fitness` (pswarm.py:138-151). -/
def pso_assess_fitness (fn : List ℚ → ℚ) (st : PSO) : PSO :=
  let r := assessList fn st.particles st.best st.previous_best
  { st with particles := r.1, best := r.2.1, previous_best := r.2.2 }

/-- The informant scan of `PSO._update_particle` (pswarm.py:163-166):
linear scan over the informant references, replacing the accumulator only
on strictly greater fitness; started at the sentinel
`FitnessLoc([], -999999.0)`.  Reading `informant.fitness_loc` when it is
`None` raises a Python `TypeError` (comparison of `FitnessLoc` with
`None`); a dangling index has no Python counterpart (references cannot
dangle) and is reported as `indexError`. -/
def scanInformants (parts : List Particle) :
    List Nat → FitnessLoc → Except Err FitnessLoc
  | [], acc => .ok acc
  | j :: js, acc =>
    match parts.get? j with
    | none => .error .indexError
    | some q =>
      match q.fitness_loc with
      | none => .error .typeError
      | some fl => scanInformants parts js (if FitnessLoc.gtb fl acc then fl else acc)

/-- One step of the per-dimension velocity loop of `PSO._update_particle`
(pswarm.py:170-174): draw `b, c, d` fresh, then overwrite dimension `i` of
the working velocity copy.  A missing index models the Python
`IndexError`/`AttributeError` raised when a location vector is shorter
than the search dimension count. -/
def velStep (cfg : PSO) (p : Particle) (pb inf gb : FitnessLoc) (u : Nat → ℚ)
    (acc : List ℚ × Nat × Option Err) (i : Nat) : List ℚ × Nat × Option Err :=
  match acc with
  | (v, k, some e) => (v, k, some e)
  | (v, k, none) =>
    let b := uniform 0 cfg.beta (u k)
    let c := uniform 0 cfg.gamma (u (k + 1))
    let d := uniform 0 cfg.delta (u (k + 2))
    match v.get? i, pb.location.get? i, inf.location.get? i,
        gb.location.get? i, p.position.get? i with
    | some vi, some pbi, some infi, some gbi, some posi =>
      (v.set i (cfg.alpha * vi + b * (pbi - posi) + c * (infi - posi)
          + d * (gbi - posi)), k + 3, none)
    | _, _, _, _, _ => (v, k + 3, some .indexError)

/-- The per-dimension velocity loop of `PSO._update_particle`
(pswarm.py:170-174), over `range(len(self.search_dimension))`. -/
def velLoop (cfg : PSO) (p : Particle) (pb inf gb : FitnessLoc) (u : Nat → ℚ)
    (v0 : List ℚ) (k : Nat) : List ℚ × Nat × Option Err :=
  (List.range cfg.search_dimension.length).foldl
    (velStep cfg p pb inf gb u) (v0, k, none)

/-- `particle.velocity_list.append(velocity)` (pswarm.py:162): in Python the
appended deep copy is later mutated in place by the per-dimension loop, so
the history entry aliases the loop's (possibly partial) result `v`. -/
def withHist (p : Particle) (v : List ℚ) : Particle :=
  { p with velocity_list := p.velocity_list ++ [v] }

/-- `particle.update_velocity(velocity)` (pswarm.py:175) together with the
aliased history entry of pswarm.py:162. -/
def withNewVel (p : Particle) (v : List ℚ) : Particle :=
  { p with velocity := v, velocity_list := p.velocity_list ++ [v] }

/-- The body of `PSO._update_particle` (pswarm.py:154-175): sweep the swarm
front to back with the already-processed prefix in `done`. -/
def updateList (cfg : PSO) (u : Nat → ℚ) :
    List Particle → List Particle → Nat → List Particle × Nat × Option Err
  | done, [], k => (done, k, none)
  | done, p :: rest, k =>
    if p.isFrozen then
      updateList cfg u (done ++ [p]) rest k
    else
      match scanInformants (done ++ withHist p p.velocity :: rest)
          p.informants ⟨[], -999999⟩ with
      | .error e => (done ++ withHist p p.velocity :: rest, k, some e)
      | .ok inf =>
        match p.personal_fittest_loc, cfg.best with
        | some pb, some gb =>
          match velLoop cfg p pb inf gb u p.velocity k with
          | (v1, k1, some e) => (done ++ withHist p v1 :: rest, k1, some e)
          | (v1, k1, none) =>
            updateList cfg u (done ++ [withNewVel p v1]) rest k1
        | _, _ => (done ++ withHist p p.velocity :: rest, k, some .attributeError)

/-- `PSO._update_particle` (pswarm.py:154-175). -/
def update_particle (st : PSO) (u : Nat → ℚ) (k : Nat) :
    PSO × Nat × Option Err :=
  let r := updateList st u [] st.particles k
  ({ st with particles := r.1 }, r.2)

/-- The membership test `d[0] <= x <= d[1]` of pswarm.py:187. -/
def inBoundsAt (d : ℚ × ℚ) (x : ℚ) : Bool := decide (d.1 ≤ x) && decide (x ≤ d.2)

/-- `temp_position = particle.position + self.epsilon * particle.velocity`
(pswarm.py:182), elementwise over vectors of equal length `D`. -/
def tempPos (eps : ℚ) (p : Particle) : List ℚ :=
  List.zipWith (fun x v => x + eps * v) p.position p.velocity

/-- The per-dimension boundary loop of `PSO._move_particles`
(pswarm.py:186-200): `for index, d in enumerate(self.search_dimension)`.
An out-of-bounds dimension is resolved by the configured policy; under
`BOUNCE` the code raises `NotImplementedError` before the (dead, defective)
reflection arithmetic, which is therefore not modelled. -/
def moveLoop (cfg : PSO) (p : Particle) (u : Nat → ℚ) :
    List (ℚ × ℚ) → Nat → List ℚ → Nat → List ℚ × Nat × Option Err
  | [], _, temp, k => (temp, k, none)
  | d :: ds, index, temp, k =>
    match temp.get? index with
    | none => (temp, k, some .indexError)
    | some t =>
      if inBoundsAt d t then
        moveLoop cfg p u ds (index + 1) temp k
      else
        match cfg.boundary_policy with
        | .BOUNCE => (temp, k, some .notImplemented)
        | .RANDOMREINIT =>
          moveLoop cfg p u ds (index + 1)
            (temp.set index (uniform d.1 d.2 (u k))) (k + 1)
        | .REFUSE =>
          match p.position.get? index with
          | none => (temp, k, some .indexError)
          | some pi => moveLoop cfg p u ds (index + 1) (temp.set index pi) k

/-- `particle.update_position(temp_position)` (pswarm.py:201). -/
def atPos (p : Particle) (xs : List ℚ) : Particle := { p with position := xs }

/-- The body of `PSO._move_particles` (pswarm.py:177-201): sweep the swarm
front to back, skipping frozen particles; `update_position` commits the
resolved candidate once per particle. -/
def moveList (cfg : PSO) (u : Nat → ℚ) :
    List Particle → List Particle → Nat → List Particle × Nat × Option Err
  | done, [], k => (done, k, none)
  | done, p :: rest, k =>
    if p.isFrozen then
      moveList cfg u (done ++ [p]) rest k
    else
      match moveLoop cfg p u cfg.search_dimension 0 (tempPos cfg.epsilon p) k with
      | (_, k1, some e) => (done ++ p :: rest, k1, some e)
      | (temp1, k1, none) => moveList cfg u (done ++ [atPos p temp1]) rest k1

/-- `PSO._move_particles` (pswarm.py:177-201). -/
def move_particles (st : PSO) (u : Nat → ℚ) (k : Nat) :
    PSO × Nat × Option Err :=
  let r := moveList st u [] st.particles k
  ({ st with particles := r.1 }, r.2)

/-- One iteration of the `while not controller.terminate` loop body of
`PSO.run` (pswarm.py:110-129): assess all, update all, move all.  The
`fitness_delta` computed afterwards only feeds the (ITERATIONS-driven)
controller and the progress bar, neither of which affects swarm state. -/
def iteration (fn : List ℚ → ℚ) (u : Nat → ℚ) (st : PSO) (k : Nat) :
    PSO × Nat × Option Err :=
  let st1 := pso_assess_fitness fn st
  match update_particle st1 u k with
  | (st2, k2, some e) => (st2, k2, some e)
  | (st2, k2, none) => move_particles st2 u k2

/-- Modelled from the spec: the `TerminationPolicyManager` of the
`psobehaviour` module (not under `src/`) under the ITERATIONS policy
terminates exactly after `max_iter` calls to `next_iteration`, so the run
loop performs `max_iter` assess/update/move sweeps (fewer if an exception
aborts the run). -/
def runLoop (fn : List ℚ → ℚ) (u : Nat → ℚ) :
    Nat → PSO → Nat → PSO × Nat × Option Err
  | 0, st, k => (st, k, none)
  | n + 1, st, k =>
    match iteration fn u st k with
    | (st1, k1, some e) => (st1, k1, some e)
    | (st1, k1, none) => runLoop fn u n st1 k1

/-- `PSO._init_position` and `PSO._init_velocity` (pswarm.py:214-228): one
uniform draw inside each per-dimension bound pair, in order. -/
def initVec (dims : List (ℚ × ℚ)) (u : Nat → ℚ) (k : Nat) : List ℚ × Nat :=
  dims.foldl (fun acc d => (acc.1 ++ [uniform d.1 d.2 (u acc.2)], acc.2 + 1)) ([], k)

/-- `Particle.__init__` (pswarm.py:298-307). -/
def Particle.mk0 (pos vel : List ℚ) : Particle :=
  { position := pos, velocity := vel, fitness_loc := none,
    personal_fittest_loc := none, informants := [], velocity_list := [] }

/-- An index into a pool of `n` candidates derived from one unit draw. -/
def drawNat (n : Nat) (x : ℚ) : Nat := min (n - 1) (Int.toNat ⌊x * n⌋)

/-- Modelled abstraction of `np.random.choice(pool, m, replace=False)`
(pswarm.py:237): `m` successive draws without replacement from the pool.
The exact distribution of numpy's sampler is not modelled; every property
proved about it here (member count, distinctness, membership in the pool)
holds for any without-replacement scheme.  numpy raises when `m` exceeds
the pool size; the embedding is only used, and its properties only claimed,
for `m ≤ pool.length`. -/
def choiceNoReplace (u : Nat → ℚ) : List Nat → Nat → Nat → List Nat × Nat
  | _, 0, k => ([], k)
  | pool, m + 1, k =>
    if pool.isEmpty then ([], k)
    else
      let i := drawNat pool.length (u k)
      let r := choiceNoReplace u (pool.eraseIdx i) m (k + 1)
      (pool.getD i 0 :: r.1, r.2)

/-- The body of `PSO._init_informants` (pswarm.py:231-237): for the
particle at index `j` of a swarm of `S` particles, the candidate pool is
every index except `j` (the Python code removes `self` from the array by
identity equality, and the particles are distinct fresh objects), and
`num_informants` are sampled from it without replacement;
`Particle.set_informants` (pswarm.py:325-331) assigns the result. -/
def informantsList (u : Nat → ℚ) (S K : Nat) :
    List Particle → Nat → Nat → List Particle × Nat
  | [], _, k => ([], k)
  | p :: ps, j, k =>
    let pool := (List.range S).filter fun x => x != j
    let r := choiceNoReplace u pool K k
    let rest := informantsList u S K ps (j + 1) r.2
    ({ p with informants := r.1 } :: rest.1, rest.2)

/-- `PSO._init_informants` (pswarm.py:231-237). -/
def init_informants (st : PSO) (u : Nat → ℚ) (k : Nat) : PSO × Nat :=
  let r := informantsList u st.particles.length st.num_informants st.particles 0 k
  ({ st with particles := r.1 }, r.2)

/-- The particle comprehension of `PSO._instantiate_particles`
(pswarm.py:209): each particle draws its position vector, then its
velocity vector. -/
def mkParticles (dims : List (ℚ × ℚ)) (u : Nat → ℚ) :
    Nat → Nat → List Particle × Nat
  | 0, k => ([], k)
  | n + 1, k =>
    let pos := initVec dims u k
    let vel := initVec dims u pos.2
    let r := mkParticles dims u n vel.2
    (Particle.mk0 pos.1 vel.1 :: r.1, r.2)

/-- `PSO._instantiate_particles` (pswarm.py:204-210). -/
def instantiate_particles (st : PSO) (u : Nat → ℚ) (k : Nat) : PSO × Nat :=
  let r := mkParticles st.search_dimension u st.swarm_size k
  init_informants { st with particles := r.1 } u r.2

/-- `PSO.set_search_dimensions` (pswarm.py:75-94), integer branch:
`dimensions` copies of the default bound pair `self.boundary`. -/
def set_search_dimensions_int (st : PSO) (dimensions : Nat) : PSO :=
  { st with search_dimension := List.replicate dimensions st.boundary,
            search_dimension_set := true }

/-- `PSO.set_search_dimensions` (pswarm.py:75-94), list branch. -/
def set_search_dimensions_list (st : PSO) (dimensions : List (ℚ × ℚ)) : PSO :=
  { st with search_dimension := dimensions, search_dimension_set := true }

/-- The start of `PSO.run` (pswarm.py:102-103): instantiate the swarm and
its topology, then set `self.best = FitnessLoc([], -9999.0)`.
`self.previous_best` is not touched here. -/
def runStart (st : PSO) (u : Nat → ℚ) (k : Nat) : PSO × Nat :=
  let r := instantiate_particles st u k
  ({ r.1 with best := some ⟨[], -9999⟩ }, r.2)

/-- `PSO.run` (pswarm.py:97-136), with the termination controller modelled
from the spec as exactly `max_iter` sweeps (ITERATIONS policy). -/
def PSO.run (fn : List ℚ → ℚ) (u : Nat → ℚ) (max_iter : Nat) (st : PSO)
    (k : Nat) : PSO × Nat × Option Err :=
  if st.search_dimension_set then
    let s := runStart st u k
    runLoop fn u max_iter s.1 s.2
  else
    (st, k, some .valueError)

/-- The `PSO.__init__` defaults (pswarm.py:39): `bound=(1, -1)`,
`alpha=0.1`, `beta=1.3`, `gamma=1.4`, `delta=1.3`, `epsilon=0.1`,
`RANDOMREINIT`, `previous_best = FitnessLoc([], -999999.0)`, `best = None`. -/
def PSO.init : PSO :=
  { swarm_size := 10, num_informants := 6, boundary := (1, -1),
    alpha := 1/10, beta := 13/10, gamma := 14/10, delta := 13/10,
    epsilon := 1/10, boundary_policy := .RANDOMREINIT,
    search_dimension := [], search_dimension_set := false,
    best := none, previous_best := some ⟨[], -999999⟩, particles := [] }

/-- A position vector lies inside the per-dimension bounds wherever both
a bound pair and a coordinate exist. -/
def posInBounds (dims : List (ℚ × ℚ)) (xs : List ℚ) : Bool :=
  (dims.zip xs).all fun dx => inBoundsAt dx.1 dx.2

/-- Every particle's position lies within the per-dimension bounds. -/
def allInBounds (st : PSO) : Bool :=
  st.particles.all fun p => posInBounds st.search_dimension p.position

/-- Every particle's position and velocity vectors have exactly one entry
per search dimension (guaranteed by `_init_position`/`_init_velocity`). -/
def swarmWF (st : PSO) : Bool :=
  st.particles.all fun p =>
    p.position.length == st.search_dimension.length &&
    p.velocity.length == st.search_dimension.length

/-- Every bound pair is ordered: `low ≤ high`. -/
def dimsSorted (dims : List (ℚ × ℚ)) : Bool := dims.all fun d => decide (d.1 ≤ d.2)

/-- A well-formed random stream: every unit draw lies in `[0, 1]`. -/
def uWF (u : Nat → ℚ) : Prop := ∀ n, 0 ≤ u n ∧ u n ≤ 1

/-! ### Basic lemmas about the building blocks -/

theorem uniform_mem {a b x : ℚ} (hab : a ≤ b) (h0 : 0 ≤ x) (h1 : x ≤ 1) :
    a ≤ uniform a b x ∧ uniform a b x ≤ b := by
  unfold uniform
  constructor
  · nlinarith
  · nlinarith

/-- The per-particle effect of the assessment sweep on the particle itself. -/
def assessTransform (fn : List ℚ → ℚ) (p : Particle) : Particle :=
  if p.isFrozen then p else (p.assess_fitness fn).2

theorem assessList_particles (fn : List ℚ → ℚ) :
    ∀ (ps : List Particle) (b pv : Option FitnessLoc),
      (assessList fn ps b pv).1 = ps.map (assessTransform fn) := by
  intro ps
  induction ps with
  | nil => intro b pv; rfl
  | cons p ps ih =>
    intro b pv
    by_cases h : p.isFrozen
    · simp [assessList, h, assessTransform, ih]
    · simp [assessList, h, assessTransform, ih]

theorem assessTransform_position (fn : List ℚ → ℚ) (p : Particle) :
    (assessTransform fn p).position = p.position := by
  unfold assessTransform Particle.assess_fitness
  split <;> rfl

theorem assessTransform_velocity (fn : List ℚ → ℚ) (p : Particle) :
    (assessTransform fn p).velocity = p.velocity := by
  unfold assessTransform Particle.assess_fitness
  split <;> rfl

theorem assessTransform_informants (fn : List ℚ → ℚ) (p : Particle) :
    (assessTransform fn p).informants = p.informants := by
  unfold assessTransform Particle.assess_fitness
  split <;> rfl

theorem assessTransform_frozen (fn : List ℚ → ℚ) (p : Particle)
    (h : p.isFrozen = true) : assessTransform fn p = p := by
  simp [assessTransform, h]

theorem assessList_best_mono (fn : List ℚ → ℚ) :
    ∀ (ps : List Particle) (b : FitnessLoc) (pv : Option FitnessLoc),
      ∃ b', (assessList fn ps (some b) pv).2.1 = some b' ∧ b.fitness ≤ b'.fitness := by
  intro ps
  induction ps with
  | nil => intro b pv; exact ⟨b, rfl, le_rfl⟩
  | cons p ps ih =>
    intro b pv
    by_cases h : p.isFrozen
    · simpa [assessList, h] using ih b pv
    · by_cases h2 : FitnessLoc.gtb (p.assess_fitness fn).1 b
      · obtain ⟨b', hb', hle⟩ := ih (p.assess_fitness fn).1 (some b)
        refine ⟨b', ?_, ?_⟩
        · simpa [assessList, h, h2] using hb'
        · have : b.fitness < (p.assess_fitness fn).1.fitness := by
            simpa [FitnessLoc.gtb] using h2
          linarith
      · obtain ⟨b', hb', hle⟩ := ih b pv
        exact ⟨b', by simpa [assessList, h, h2] using hb', hle⟩

/-! ### Shape and frame lemmas for the velocity-update sweep -/

theorem velStep_length (cfg : PSO) (p : Particle) (pb inf gb : FitnessLoc)
    (u : Nat → ℚ) (acc : List ℚ × Nat × Option Err) (i : Nat) :
    ((velStep cfg p pb inf gb u acc i).1).length = acc.1.length := by
  rcases acc with ⟨v, k, e⟩
  cases e with
  | none =>
    simp only [velStep]
    split <;> simp [List.length_set]
  | some e => rfl

theorem velLoop_foldl_length (cfg : PSO) (p : Particle) (pb inf gb : FitnessLoc)
    (u : Nat → ℚ) :
    ∀ (l : List Nat) (acc : List ℚ × Nat × Option Err),
      ((l.foldl (velStep cfg p pb inf gb u) acc).1).length = acc.1.length := by
  intro l
  induction l with
  | nil => intro acc; rfl
  | cons i l ih => intro acc; rw [List.foldl_cons, ih, velStep_length]

theorem velLoop_length (cfg : PSO) (p : Particle) (pb inf gb : FitnessLoc)
    (u : Nat → ℚ) (v0 : List ℚ) (k : Nat) :
    ((velLoop cfg p pb inf gb u v0 k).1).length = v0.length :=
  velLoop_foldl_length cfg p pb inf gb u _ _

/-- What the velocity-update sweep leaves intact on every particle:
position, fitness record, personal best, informant set and the velocity
vector's length; a frozen particle is entirely untouched. -/
def updRel (p q : Particle) : Prop :=
  q.position = p.position ∧ q.fitness_loc = p.fitness_loc ∧
  q.personal_fittest_loc = p.personal_fittest_loc ∧ q.informants = p.informants ∧
  q.velocity.length = p.velocity.length ∧ (p.isFrozen = true → q = p)

theorem updRel_refl (p : Particle) : updRel p p :=
  ⟨rfl, rfl, rfl, rfl, rfl, fun _ => rfl⟩

theorem updateList_nil (cfg : PSO) (u : Nat → ℚ) (done : List Particle) (k : Nat) :
    updateList cfg u done [] k = (done, k, none) := rfl

theorem updateList_frozen (cfg : PSO) (u : Nat → ℚ) (done rest : List Particle)
    (p : Particle) (k : Nat) (hf : p.isFrozen = true) :
    updateList cfg u done (p :: rest) k = updateList cfg u (done ++ [p]) rest k := by
  simp [updateList, hf]

theorem updateList_scan_err (cfg : PSO) (u : Nat → ℚ) (done rest : List Particle)
    (p : Particle) (k : Nat) (e : Err) (hf : p.isFrozen = false)
    (hscan : scanInformants (done ++ withHist p p.velocity :: rest)
      p.informants ⟨[], -999999⟩ = .error e) :
    updateList cfg u done (p :: rest) k =
      (done ++ withHist p p.velocity :: rest, k, some e) := by
  simp only [updateList, hf, Bool.false_eq_true, if_false]
  split
  · rename_i e' heq
    rw [hscan] at heq
    injection heq with heq
    subst heq
    rfl
  · simp_all

theorem updateList_no_pb (cfg : PSO) (u : Nat → ℚ) (done rest : List Particle)
    (p : Particle) (k : Nat) (inf : FitnessLoc) (hf : p.isFrozen = false)
    (hscan : scanInformants (done ++ withHist p p.velocity :: rest)
      p.informants ⟨[], -999999⟩ = .ok inf)
    (hpb : p.personal_fittest_loc = none) :
    updateList cfg u done (p :: rest) k =
      (done ++ withHist p p.velocity :: rest, k, some .attributeError) := by
  simp only [updateList, hf, Bool.false_eq_true, if_false]
  split
  · simp_all
  · rename_i inf' heq
    rw [hscan] at heq
    injection heq with heq
    subst heq
    rw [hpb]

theorem updateList_no_gb (cfg : PSO) (u : Nat → ℚ) (done rest : List Particle)
    (p : Particle) (k : Nat) (inf : FitnessLoc) (hf : p.isFrozen = false)
    (hscan : scanInformants (done ++ withHist p p.velocity :: rest)
      p.informants ⟨[], -999999⟩ = .ok inf)
    (hgb : cfg.best = none) :
    updateList cfg u done (p :: rest) k =
      (done ++ withHist p p.velocity :: rest, k, some .attributeError) := by
  simp only [updateList, hf, Bool.false_eq_true, if_false]
  split
  · simp_all
  · rename_i inf' heq
    rw [hscan] at heq
    injection heq with heq
    subst heq
    rw [hgb]
    split
    · rename_i pb' gb' hpbe hgbe
      cases hgbe
    · rfl

theorem updateList_vel_err (cfg : PSO) (u : Nat → ℚ) (done rest : List Particle)
    (p : Particle) (k k1 : Nat) (inf pb gb : FitnessLoc) (v1 : List ℚ) (e : Err)
    (hf : p.isFrozen = false)
    (hscan : scanInformants (done ++ withHist p p.velocity :: rest)
      p.informants ⟨[], -999999⟩ = .ok inf)
    (hpb : p.personal_fittest_loc = some pb) (hgb : cfg.best = some gb)
    (hvl : velLoop cfg p pb inf gb u p.velocity k = (v1, k1, some e)) :
    updateList cfg u done (p :: rest) k =
      (done ++ withHist p v1 :: rest, k1, some e) := by
  simp only [updateList, hf, Bool.false_eq_true, if_false]
  split
  · simp_all
  · rename_i inf' heq
    rw [hscan] at heq
    injection heq with heq
    subst heq
    rw [hpb, hgb]
    split
    · rename_i pb' gb' hpbe hgbe
      injection hpbe with hpbe
      injection hgbe with hgbe
      subst hpbe hgbe
      split
      · rename_i v1' k1' e' hveq
        rw [hvl] at hveq
        injection hveq with h1 h2
        injection h2 with h2 h3
        injection h3 with h3
        subst h1 h2 h3
        rfl
      · rename_i v1' k1' hveq
        rw [hvl] at hveq
        injection hveq with h1 h2
        injection h2 with h2 h3
        cases h3
    · simp_all

theorem updateList_vel_ok (cfg : PSO) (u : Nat → ℚ) (done rest : List Particle)
    (p : Particle) (k k1 : Nat) (inf pb gb : FitnessLoc) (v1 : List ℚ)
    (hf : p.isFrozen = false)
    (hscan : scanInformants (done ++ withHist p p.velocity :: rest)
      p.informants ⟨[], -999999⟩ = .ok inf)
    (hpb : p.personal_fittest_loc = some pb) (hgb : cfg.best = some gb)
    (hvl : velLoop cfg p pb inf gb u p.velocity k = (v1, k1, none)) :
    updateList cfg u done (p :: rest) k =
      updateList cfg u (done ++ [withNewVel p v1]) rest k1 := by
  simp only [updateList, hf, Bool.false_eq_true, if_false]
  split
  · simp_all
  · rename_i inf' heq
    rw [hscan] at heq
    injection heq with heq
    subst heq
    rw [hpb, hgb]
    split
    · rename_i pb' gb' hpbe hgbe
      injection hpbe with hpbe
      injection hgbe with hgbe
      subst hpbe hgbe
      split
      · rename_i v1' k1' e' hveq
        rw [hvl] at hveq
        injection hveq with h1 h2
        injection h2 with h2 h3
        cases h3
      · rename_i v1' k1' hveq
        rw [hvl] at hveq
        injection hveq with h1 h2
        injection h2 with h2 h3
        subst h1 h2
        rfl
    · simp_all

theorem updRel_withHist (p : Particle) (v : List ℚ) (hf : p.isFrozen = false) :
    updRel p (withHist p v) :=
  ⟨rfl, rfl, rfl, rfl, rfl, fun hc => by rw [hf] at hc; exact absurd hc (by simp)⟩

theorem updateList_shape (cfg : PSO) (u : Nat → ℚ) :
    ∀ (rest done : List Particle) (k : Nat),
      ∃ rest', (updateList cfg u done rest k).1 = done ++ rest' ∧
        List.Forall₂ updRel rest rest' := by
  intro rest
  induction rest with
  | nil => intro done k; exact ⟨[], by simp [updateList_nil], List.Forall₂.nil⟩
  | cons p rest ih =>
    intro done k
    by_cases hf : p.isFrozen
    · obtain ⟨rest', h1, h2⟩ := ih (done ++ [p]) k
      refine ⟨p :: rest', ?_, List.Forall₂.cons (updRel_refl p) h2⟩
      rw [updateList_frozen cfg u done rest p k hf, h1]
      simp
    · rw [Bool.not_eq_true] at hf
      rcases hscan : scanInformants (done ++ withHist p p.velocity :: rest)
          p.informants ⟨[], -999999⟩ with e | inf
      · refine ⟨withHist p p.velocity :: rest, ?_,
          List.Forall₂.cons (updRel_withHist p p.velocity hf)
          (List.forall₂_same.mpr fun x _ => updRel_refl x)⟩
        rw [updateList_scan_err cfg u done rest p k e hf hscan]
      · rcases hpb : p.personal_fittest_loc with _ | pb
        · refine ⟨withHist p p.velocity :: rest, ?_,
            List.Forall₂.cons (updRel_withHist p p.velocity hf)
            (List.forall₂_same.mpr fun x _ => updRel_refl x)⟩
          rw [updateList_no_pb cfg u done rest p k inf hf hscan hpb]
        · rcases hgb : cfg.best with _ | gb
          · refine ⟨withHist p p.velocity :: rest, ?_,
              List.Forall₂.cons (updRel_withHist p p.velocity hf)
              (List.forall₂_same.mpr fun x _ => updRel_refl x)⟩
            rw [updateList_no_gb cfg u done rest p k inf hf hscan hgb]
          · rcases hvl : velLoop cfg p pb inf gb u p.velocity k with ⟨v1, k1, e1⟩
            have hlen : v1.length = p.velocity.length := by
              have h := velLoop_length cfg p pb inf gb u p.velocity k
              rw [hvl] at h
              exact h
            cases e1 with
            | some e =>
              refine ⟨withHist p v1 :: rest, ?_,
                List.Forall₂.cons (updRel_withHist p v1 hf)
                (List.forall₂_same.mpr fun x _ => updRel_refl x)⟩
              rw [updateList_vel_err cfg u done rest p k k1 inf pb gb v1 e hf hscan hpb hgb hvl]
            | none =>
              obtain ⟨rest', h1, h2⟩ := ih (done ++ [withNewVel p v1]) k1
              refine ⟨withNewVel p v1 :: rest', ?_, List.Forall₂.cons
                ⟨rfl, rfl, rfl, rfl, hlen, fun hc => by rw [hf] at hc; exact absurd hc (by simp)⟩ h2⟩
              rw [updateList_vel_ok cfg u done rest p k k1 inf pb gb v1 hf hscan hpb hgb hvl, h1]
              simp

/-! ### Shape and frame lemmas for the move sweep -/

theorem moveList_nil (cfg : PSO) (u : Nat → ℚ) (done : List Particle) (k : Nat) :
    moveList cfg u done [] k = (done, k, none) := rfl

theorem moveList_frozen (cfg : PSO) (u : Nat → ℚ) (done rest : List Particle)
    (p : Particle) (k : Nat) (hf : p.isFrozen = true) :
    moveList cfg u done (p :: rest) k = moveList cfg u (done ++ [p]) rest k := by
  simp [moveList, hf]

theorem moveList_err (cfg : PSO) (u : Nat → ℚ) (done rest : List Particle)
    (p : Particle) (k k1 : Nat) (t1 : List ℚ) (e : Err) (hf : p.isFrozen = false)
    (hml : moveLoop cfg p u cfg.search_dimension 0 (tempPos cfg.epsilon p) k
      = (t1, k1, some e)) :
    moveList cfg u done (p :: rest) k = (done ++ p :: rest, k1, some e) := by
  simp only [moveList, hf, Bool.false_eq_true, if_false]
  split
  · rename_i t1' k1' e' hveq
    rw [hml] at hveq
    injection hveq with h1 h2
    injection h2 with h2 h3
    injection h3 with h3
    subst h2 h3
    rfl
  · rename_i t1' k1' hveq
    rw [hml] at hveq
    injection hveq with h1 h2
    injection h2 with h2 h3
    cases h3

theorem moveList_ok (cfg : PSO) (u : Nat → ℚ) (done rest : List Particle)
    (p : Particle) (k k1 : Nat) (t1 : List ℚ) (hf : p.isFrozen = false)
    (hml : moveLoop cfg p u cfg.search_dimension 0 (tempPos cfg.epsilon p) k
      = (t1, k1, none)) :
    moveList cfg u done (p :: rest) k = moveList cfg u (done ++ [atPos p t1]) rest k1 := by
  simp only [moveList, hf, Bool.false_eq_true, if_false]
  split
  · rename_i t1' k1' e' hveq
    rw [hml] at hveq
    injection hveq with h1 h2
    injection h2 with h2 h3
    cases h3
  · rename_i t1' k1' hveq
    rw [hml] at hveq
    injection hveq with h1 h2
    injection h2 with h2 h3
    subst h1 h2
    rfl

/-- What the move sweep leaves intact on every particle: everything except
the position; a frozen particle is entirely untouched. -/
def movRel (p q : Particle) : Prop :=
  q.velocity = p.velocity ∧ q.fitness_loc = p.fitness_loc ∧
  q.personal_fittest_loc = p.personal_fittest_loc ∧ q.informants = p.informants ∧
  q.velocity_list = p.velocity_list ∧ (p.isFrozen = true → q = p)

theorem movRel_refl (p : Particle) : movRel p p :=
  ⟨rfl, rfl, rfl, rfl, rfl, fun _ => rfl⟩

theorem moveList_shape (cfg : PSO) (u : Nat → ℚ) :
    ∀ (rest done : List Particle) (k : Nat),
      ∃ rest', (moveList cfg u done rest k).1 = done ++ rest' ∧
        List.Forall₂ movRel rest rest' := by
  intro rest
  induction rest with
  | nil => intro done k; exact ⟨[], by simp [moveList_nil], List.Forall₂.nil⟩
  | cons p rest ih =>
    intro done k
    by_cases hf : p.isFrozen
    · obtain ⟨rest', h1, h2⟩ := ih (done ++ [p]) k
      refine ⟨p :: rest', ?_, List.Forall₂.cons (movRel_refl p) h2⟩
      rw [moveList_frozen cfg u done rest p k hf, h1]
      simp
    · rw [Bool.not_eq_true] at hf
      rcases hml : moveLoop cfg p u cfg.search_dimension 0 (tempPos cfg.epsilon p) k
        with ⟨t1, k1, e1⟩
      cases e1 with
      | some e =>
        refine ⟨p :: rest, ?_, List.Forall₂.cons (movRel_refl p)
          (List.forall₂_same.mpr fun x _ => movRel_refl x)⟩
        rw [moveList_err cfg u done rest p k k1 t1 e hf hml]
      | none =>
        obtain ⟨rest', h1, h2⟩ := ih (done ++ [atPos p t1]) k1
        refine ⟨atPos p t1 :: rest', ?_, List.Forall₂.cons
          ⟨rfl, rfl, rfl, rfl, rfl, fun hc => by rw [hf] at hc; exact absurd hc (by simp)⟩ h2⟩
        rw [moveList_ok cfg u done rest p k k1 t1 hf hml, h1]
        simp

/-! ### Positional helpers -/

theorem forall2_get {R : Particle → Particle → Prop} :
    ∀ {l l' : List Particle}, List.Forall₂ R l l' →
      ∀ i p, l.get? i = some p → ∃ q, l'.get? i = some q ∧ R p q := by
  intro l l' h
  induction h with
  | nil => intro i p hp; simp at hp
  | cons hr hrest ih =>
    intro i p hp
    cases i with
    | zero =>
      refine ⟨_, rfl, ?_⟩
      simp only [List.get?] at hp
      injection hp with hp
      subst hp
      exact hr
    | succ i => exact ih i p hp

theorem get?_append_offset {α : Type} (l1 l2 : List α) (i : Nat) :
    (l1 ++ l2).get? (l1.length + i) = l2.get? i := by
  rw [List.get?_append_right (Nat.le_add_right _ _)]
  simp

/-! ### Phase-level frame facts -/

theorem update_particle_rel (st : PSO) (u : Nat → ℚ) (k : Nat) :
    List.Forall₂ updRel st.particles (update_particle st u k).1.particles := by
  obtain ⟨rest', h1, h2⟩ := updateList_shape st u st.particles [] k
  have : (update_particle st u k).1.particles = (updateList st u [] st.particles k).1 := rfl
  rw [this, h1]
  simpa using h2

theorem update_particle_best (st : PSO) (u : Nat → ℚ) (k : Nat) :
    (update_particle st u k).1.best = st.best := rfl

theorem update_particle_previous_best (st : PSO) (u : Nat → ℚ) (k : Nat) :
    (update_particle st u k).1.previous_best = st.previous_best := rfl

theorem update_particle_search_dimension (st : PSO) (u : Nat → ℚ) (k : Nat) :
    (update_particle st u k).1.search_dimension = st.search_dimension := rfl

theorem update_particle_policy (st : PSO) (u : Nat → ℚ) (k : Nat) :
    (update_particle st u k).1.boundary_policy = st.boundary_policy := rfl

theorem update_particle_epsilon (st : PSO) (u : Nat → ℚ) (k : Nat) :
    (update_particle st u k).1.epsilon = st.epsilon := rfl

theorem move_particles_rel (st : PSO) (u : Nat → ℚ) (k : Nat) :
    List.Forall₂ movRel st.particles (move_particles st u k).1.particles := by
  obtain ⟨rest', h1, h2⟩ := moveList_shape st u st.particles [] k
  have : (move_particles st u k).1.particles = (moveList st u [] st.particles k).1 := rfl
  rw [this, h1]
  simpa using h2

theorem move_particles_best (st : PSO) (u : Nat → ℚ) (k : Nat) :
    (move_particles st u k).1.best = st.best := rfl

theorem move_particles_previous_best (st : PSO) (u : Nat → ℚ) (k : Nat) :
    (move_particles st u k).1.previous_best = st.previous_best := rfl

theorem move_particles_search_dimension (st : PSO) (u : Nat → ℚ) (k : Nat) :
    (move_particles st u k).1.search_dimension = st.search_dimension := rfl

theorem move_particles_policy (st : PSO) (u : Nat → ℚ) (k : Nat) :
    (move_particles st u k).1.boundary_policy = st.boundary_policy := rfl

theorem assess_particles_eq (fn : List ℚ → ℚ) (st : PSO) :
    (pso_assess_fitness fn st).particles = st.particles.map (assessTransform fn) := by
  have : (pso_assess_fitness fn st).particles
      = (assessList fn st.particles st.best st.previous_best).1 := rfl
  rw [this, assessList_particles]

theorem assess_search_dimension (fn : List ℚ → ℚ) (st : PSO) :
    (pso_assess_fitness fn st).search_dimension = st.search_dimension := rfl

theorem assess_policy (fn : List ℚ → ℚ) (st : PSO) :
    (pso_assess_fitness fn st).boundary_policy = st.boundary_policy := rfl

theorem assess_epsilon (fn : List ℚ → ℚ) (st : PSO) :
    (pso_assess_fitness fn st).epsilon = st.epsilon := rfl

/-! ### Iteration- and run-level equations -/

theorem iteration_err (fn : List ℚ → ℚ) (u : Nat → ℚ) (st st2 : PSO) (k k2 : Nat)
    (e : Err) (hup : update_particle (pso_assess_fitness fn st) u k = (st2, k2, some e)) :
    iteration fn u st k = (st2, k2, some e) := by
  simp only [iteration]
  rw [hup]

theorem iteration_ok (fn : List ℚ → ℚ) (u : Nat → ℚ) (st st2 : PSO) (k k2 : Nat)
    (hup : update_particle (pso_assess_fitness fn st) u k = (st2, k2, none)) :
    iteration fn u st k = move_particles st2 u k2 := by
  simp only [iteration]
  rw [hup]

theorem runLoop_zero (fn : List ℚ → ℚ) (u : Nat → ℚ) (st : PSO) (k : Nat) :
    runLoop fn u 0 st k = (st, k, none) := rfl

theorem runLoop_succ_err (fn : List ℚ → ℚ) (u : Nat → ℚ) (n : Nat) (st st1 : PSO)
    (k k1 : Nat) (e : Err) (hit : iteration fn u st k = (st1, k1, some e)) :
    runLoop fn u (n + 1) st k = (st1, k1, some e) := by
  simp only [runLoop]
  rw [hit]

theorem runLoop_succ_ok (fn : List ℚ → ℚ) (u : Nat → ℚ) (n : Nat) (st st1 : PSO)
    (k k1 : Nat) (hit : iteration fn u st k = (st1, k1, none)) :
    runLoop fn u (n + 1) st k = runLoop fn u n st1 k1 := by
  simp only [runLoop]
  rw [hit]

/-! ### Frozen particles are never touched -/

theorem assess_frozen_get (fn : List ℚ → ℚ) (st : PSO) (i : Nat) (p : Particle)
    (hp : st.particles.get? i = some p) (hf : p.isFrozen = true) :
    (pso_assess_fitness fn st).particles.get? i = some p := by
  rw [assess_particles_eq, List.get?_map, hp]
  simp [assessTransform_frozen fn p hf]

theorem update_frozen_get (st : PSO) (u : Nat → ℚ) (k i : Nat) (p : Particle)
    (hp : st.particles.get? i = some p) (hf : p.isFrozen = true) :
    (update_particle st u k).1.particles.get? i = some p := by
  obtain ⟨q, hq, hrel⟩ := forall2_get (update_particle_rel st u k) i p hp
  rw [hq, hrel.2.2.2.2.2 hf]

theorem move_frozen_get (st : PSO) (u : Nat → ℚ) (k i : Nat) (p : Particle)
    (hp : st.particles.get? i = some p) (hf : p.isFrozen = true) :
    (move_particles st u k).1.particles.get? i = some p := by
  obtain ⟨q, hq, hrel⟩ := forall2_get (move_particles_rel st u k) i p hp
  rw [hq, hrel.2.2.2.2.2 hf]

theorem iteration_frozen (fn : List ℚ → ℚ) (u : Nat → ℚ) (st : PSO) (k i : Nat)
    (p : Particle) (hp : st.particles.get? i = some p) (hf : p.isFrozen = true) :
    (iteration fn u st k).1.particles.get? i = some p := by
  have h1 := assess_frozen_get fn st i p hp hf
  rcases hup : update_particle (pso_assess_fitness fn st) u k with ⟨st2, k2, e2⟩
  have h2 : st2.particles.get? i = some p := by
    have := update_frozen_get (pso_assess_fitness fn st) u k i p h1 hf
    rw [hup] at this
    exact this
  cases e2 with
  | some e => rw [iteration_err fn u st st2 k k2 e hup]; exact h2
  | none =>
    rw [iteration_ok fn u st st2 k k2 hup]
    exact move_frozen_get st2 u k2 i p h2 hf

theorem runLoop_frozen (fn : List ℚ → ℚ) (u : Nat → ℚ) :
    ∀ (n : Nat) (st : PSO) (k i : Nat) (p : Particle),
      st.particles.get? i = some p → p.isFrozen = true →
      (runLoop fn u n st k).1.particles.get? i = some p := by
  intro n
  induction n with
  | zero => intro st k i p hp _; exact hp
  | succ n ih =>
    intro st k i p hp hf
    rcases hit : iteration fn u st k with ⟨st1, k1, e1⟩
    cases e1 with
    | some e =>
      rw [runLoop_succ_err fn u n st st1 k k1 e hit]
      have := iteration_frozen fn u st k i p hp hf
      rw [hit] at this
      exact this
    | none =>
      rw [runLoop_succ_ok fn u n st st1 k k1 hit]
      refine ih st1 k1 i p ?_ hf
      have := iteration_frozen fn u st k i p hp hf
      rw [hit] at this
      exact this

/-! ### Best-fitness monotonicity -/

theorem assess_best_mono (fn : List ℚ → ℚ) (st : PSO) (b : FitnessLoc)
    (hb : st.best = some b) :
    ∃ b', (pso_assess_fitness fn st).best = some b' ∧ b.fitness ≤ b'.fitness := by
  have h : (pso_assess_fitness fn st).best
      = (assessList fn st.particles st.best st.previous_best).2.1 := rfl
  rw [hb] at h
  obtain ⟨b', hb', hle⟩ := assessList_best_mono fn st.particles b st.previous_best
  exact ⟨b', by rw [h, hb'], hle⟩

theorem iteration_best_mono (fn : List ℚ → ℚ) (u : Nat → ℚ) (st : PSO) (k : Nat)
    (b : FitnessLoc) (hb : st.best = some b) :
    ∃ b', (iteration fn u st k).1.best = some b' ∧ b.fitness ≤ b'.fitness := by
  obtain ⟨b', hb', hle⟩ := assess_best_mono fn st b hb
  rcases hup : update_particle (pso_assess_fitness fn st) u k with ⟨st2, k2, e2⟩
  have h2 : st2.best = some b' := by
    have := update_particle_best (pso_assess_fitness fn st) u k
    rw [hup] at this
    rw [← this] at hb'
    exact hb'
  cases e2 with
  | some e => exact ⟨b', by rw [iteration_err fn u st st2 k k2 e hup]; exact h2, hle⟩
  | none =>
    refine ⟨b', ?_, hle⟩
    rw [iteration_ok fn u st st2 k k2 hup, move_particles_best]
    exact h2

theorem runLoop_best_mono (fn : List ℚ → ℚ) (u : Nat → ℚ) :
    ∀ (n : Nat) (st : PSO) (k : Nat) (b : FitnessLoc), st.best = some b →
      ∃ b', (runLoop fn u n st k).1.best = some b' ∧ b.fitness ≤ b'.fitness := by
  intro n
  induction n with
  | zero => intro st k b hb; exact ⟨b, hb, le_rfl⟩
  | succ n ih =>
    intro st k b hb
    rcases hit : iteration fn u st k with ⟨st1, k1, e1⟩
    have h1 := iteration_best_mono fn u st k b hb
    rw [hit] at h1
    obtain ⟨b', hb', hle⟩ := h1
    cases e1 with
    | some e => exact ⟨b', by rw [runLoop_succ_err fn u n st st1 k k1 e hit]; exact hb', hle⟩
    | none =>
      rw [runLoop_succ_ok fn u n st st1 k k1 hit]
      obtain ⟨b'', hb'', hle'⟩ := ih st1 k1 b' hb'
      exact ⟨b'', hb'', le_trans hle hle'⟩

/-! ### Claim C3 -/

/-- C3: a particle whose velocity vector is exactly zero in every dimension
is skipped by all three phases of an iteration (its state after the
assessment, velocity-update and move phases is identical to before), and
consequently, once a particle's velocity is the all-zero vector, its
velocity, position, `fitness_loc` and personal best are never modified
again for any number of further iterations (permanent freeze). -/
theorem c3_frozen_particle_permanent (fn : List ℚ → ℚ) (u : Nat → ℚ) (st : PSO)
    (k i : Nat) (p : Particle)
    (hp : st.particles.get? i = some p) (hf : p.isFrozen = true) :
    (pso_assess_fitness fn st).particles.get? i = some p ∧
    (update_particle st u k).1.particles.get? i = some p ∧
    (move_particles st u k).1.particles.get? i = some p ∧
    ∀ (n k' : Nat), (runLoop fn u n st k').1.particles.get? i = some p :=
  ⟨assess_frozen_get fn st i p hp hf,
   update_frozen_get st u k i p hp hf,
   move_frozen_get st u k i p hp hf,
   fun n k' => runLoop_frozen fn u n st k' i p hp hf⟩

/-- A frozen particle used by the concrete witnesses. -/
def wFrozen : Particle :=
  { position := [3], velocity := [0], fitness_loc := none,
    personal_fittest_loc := none, informants := [], velocity_list := [] }

/-- A live (non-frozen) particle used by the concrete witnesses. -/
def wLive : Particle :=
  { position := [5], velocity := [1], fitness_loc := some ⟨[5], 1⟩,
    personal_fittest_loc := some ⟨[5], 1⟩, informants := [0], velocity_list := [] }

def c3st : PSO :=
  { PSO.init with
      search_dimension := [(0, 10)]
      search_dimension_set := true
      best := some ⟨[0], 0⟩
      particles := [wFrozen] }

theorem c3_witness :
    c3st.particles.get? 0 = some wFrozen ∧ wFrozen.isFrozen = true ∧
    (runLoop (fun _ => 0) (fun _ => 0) 2 c3st 0).1.particles.get? 0 = some wFrozen :=
  ⟨by decide, by decide,
    (c3_frozen_particle_permanent (fun _ => 0) (fun _ => 0) c3st 0 0 wFrozen (by decide)
      (by decide)).2.2.2 2 0⟩

/-! ### Claim C5 -/

/-- C5: within a run the fitness of the swarm-wide best `FitnessLoc` is
monotonically non-decreasing: one iteration can only keep or increase it
(`best` is replaced only on strictly greater fitness during the assessment
sweep and is untouched by the other phases), and hence after any number of
iterations the best fitness is at least its starting value. -/
theorem c5_best_monotone (fn : List ℚ → ℚ) (u : Nat → ℚ) (st : PSO) (k : Nat)
    (b : FitnessLoc) (hb : st.best = some b) :
    (∃ b', (iteration fn u st k).1.best = some b' ∧ b.fitness ≤ b'.fitness) ∧
    ∀ (n k' : Nat), ∃ b',
      (runLoop fn u n st k').1.best = some b' ∧ b.fitness ≤ b'.fitness :=
  ⟨iteration_best_mono fn u st k b hb,
   fun n k' => runLoop_best_mono fn u n st k' b hb⟩

def c5st : PSO :=
  { PSO.init with
      search_dimension := [(0, 10)]
      search_dimension_set := true
      best := some ⟨[], -9999⟩
      particles := [wLive] }

theorem c5_witness :
    c5st.best = some ⟨[], -9999⟩ ∧
    ∃ b', (runLoop (fun _ => 7) (fun _ => 0) 2 c5st 0).1.best = some b' ∧
      (-9999 : ℚ) ≤ b'.fitness :=
  ⟨by decide, (c5_best_monotone (fun _ => 7) (fun _ => 0) c5st 0 ⟨[], -9999⟩ (by decide)).2 2 0⟩

/-! ### Claim C9 -/

/-- C9: the velocity-update phase modifies only particle velocities and the
diagnostic velocity history: every particle's position, `fitness_loc`,
personal best and informant set are exactly as before the phase, and the
swarm-wide `best`/`previous_best` and the search space are untouched
(positions change only in the later move phase). -/
theorem c9_update_frame (st : PSO) (u : Nat → ℚ) (k : Nat) :
    (∀ i p, st.particles.get? i = some p →
      ∃ q, (update_particle st u k).1.particles.get? i = some q ∧
        q.position = p.position ∧ q.fitness_loc = p.fitness_loc ∧
        q.personal_fittest_loc = p.personal_fittest_loc ∧
        q.informants = p.informants) ∧
    (update_particle st u k).1.best = st.best ∧
    (update_particle st u k).1.previous_best = st.previous_best ∧
    (update_particle st u k).1.search_dimension = st.search_dimension := by
  refine ⟨?_, rfl, rfl, rfl⟩
  intro i p hp
  obtain ⟨q, hq, hrel⟩ := forall2_get (update_particle_rel st u k) i p hp
  exact ⟨q, hq, hrel.1, hrel.2.1, hrel.2.2.1, hrel.2.2.2.1⟩

def c9st : PSO :=
  { PSO.init with
      search_dimension := [(0, 10)]
      search_dimension_set := true
      best := some ⟨[5], 1⟩
      particles := [wLive] }

/-! ### Claim C2: positions stay inside the search-space bounds -/

theorem posInBounds_nil_right (dims : List (ℚ × ℚ)) : posInBounds dims [] = true := by
  cases dims <;> rfl

theorem posInBounds_cons (d : ℚ × ℚ) (dims : List (ℚ × ℚ)) (x : ℚ) (xs : List ℚ) :
    posInBounds (d :: dims) (x :: xs) = (inBoundsAt d x && posInBounds dims xs) := rfl

theorem posInBounds_get :
    ∀ (dims : List (ℚ × ℚ)) (xs : List ℚ), posInBounds dims xs = true →
      ∀ (i : Nat) (d : ℚ × ℚ) (x : ℚ), dims.get? i = some d → xs.get? i = some x →
        inBoundsAt d x = true := by
  intro dims
  induction dims with
  | nil => intro xs h i d x hd hx; simp at hd
  | cons d0 dims ih =>
    intro xs h i d x hd hx
    cases xs with
    | nil => simp at hx
    | cons x0 xs =>
      rw [posInBounds_cons, Bool.and_eq_true] at h
      cases i with
      | zero =>
        simp only [List.get?] at hd hx
        injection hd with hd
        injection hx with hx
        rw [← hd, ← hx]
        exact h.1
      | succ i => exact ih xs h.2 i d x hd hx

theorem posInBounds_intro :
    ∀ (dims : List (ℚ × ℚ)) (xs : List ℚ),
      (∀ (i : Nat) (d : ℚ × ℚ) (x : ℚ), dims.get? i = some d → xs.get? i = some x →
        inBoundsAt d x = true) → posInBounds dims xs = true := by
  intro dims
  induction dims with
  | nil => intro xs h; rfl
  | cons d0 dims ih =>
    intro xs h
    cases xs with
    | nil => exact posInBounds_nil_right _
    | cons x0 xs =>
      rw [posInBounds_cons, Bool.and_eq_true]
      exact ⟨h 0 d0 x0 rfl rfl, ih xs fun i d x hd hx => h (i + 1) d x hd hx⟩

theorem dimsSorted_get {dims : List (ℚ × ℚ)} (h : dimsSorted dims = true)
    {i : Nat} {d : ℚ × ℚ} (hd : dims.get? i = some d) : d.1 ≤ d.2 := by
  rw [dimsSorted, List.all_eq_true] at h
  have hmem : d ∈ dims := List.get?_mem hd
  simpa using h d hmem

/-! Reduction equations for the per-dimension boundary loop. -/

theorem moveLoop_nil (cfg : PSO) (p : Particle) (u : Nat → ℚ) (index : Nat)
    (temp : List ℚ) (k : Nat) :
    moveLoop cfg p u [] index temp k = (temp, k, none) := rfl

theorem moveLoop_cons_bounce (cfg : PSO) (p : Particle) (u : Nat → ℚ) (d : ℚ × ℚ)
    (ds : List (ℚ × ℚ)) (index : Nat) (temp : List ℚ) (k : Nat) (t : ℚ)
    (hget : temp.get? index = some t) (hin : inBoundsAt d t = false)
    (hpol : cfg.boundary_policy = .BOUNCE) :
    moveLoop cfg p u (d :: ds) index temp k = (temp, k, some .notImplemented) := by
  simp only [moveLoop]
  rw [hget]
  simp [hin, hpol]

theorem moveLoop_cons_rr (cfg : PSO) (p : Particle) (u : Nat → ℚ) (d : ℚ × ℚ)
    (ds : List (ℚ × ℚ)) (index : Nat) (temp : List ℚ) (k : Nat) (t : ℚ)
    (hget : temp.get? index = some t) (hin : inBoundsAt d t = false)
    (hpol : cfg.boundary_policy = .RANDOMREINIT) :
    moveLoop cfg p u (d :: ds) index temp k =
      moveLoop cfg p u ds (index + 1) (temp.set index (uniform d.1 d.2 (u k))) (k + 1) := by
  simp only [moveLoop]
  rw [hget]
  simp [hin, hpol]

theorem moveLoop_cons_refuse (cfg : PSO) (p : Particle) (u : Nat → ℚ) (d : ℚ × ℚ)
    (ds : List (ℚ × ℚ)) (index : Nat) (temp : List ℚ) (k : Nat) (t pi : ℚ)
    (hget : temp.get? index = some t) (hin : inBoundsAt d t = false)
    (hpol : cfg.boundary_policy = .REFUSE) (hpi : p.position.get? index = some pi) :
    moveLoop cfg p u (d :: ds) index temp k =
      moveLoop cfg p u ds (index + 1) (temp.set index pi) k := by
  simp only [moveLoop]
  rw [hget]
  simp only [hin, Bool.false_eq_true, if_false, hpol]
  rw [hpi]

theorem moveLoop_cons_refuse_none (cfg : PSO) (p : Particle) (u : Nat → ℚ) (d : ℚ × ℚ)
    (ds : List (ℚ × ℚ)) (index : Nat) (temp : List ℚ) (k : Nat) (t : ℚ)
    (hget : temp.get? index = some t) (hin : inBoundsAt d t = false)
    (hpol : cfg.boundary_policy = .REFUSE) (hpi : p.position.get? index = none) :
    moveLoop cfg p u (d :: ds) index temp k = (temp, k, some .indexError) := by
  simp only [moveLoop]
  rw [hget]
  simp only [hin, Bool.false_eq_true, if_false, hpol]
  rw [hpi]

theorem moveLoop_cons_in (cfg : PSO) (p : Particle) (u : Nat → ℚ) (d : ℚ × ℚ)
    (ds : List (ℚ × ℚ)) (index : Nat) (temp : List ℚ) (k : Nat) (t : ℚ)
    (hget : temp.get? index = some t) (hin : inBoundsAt d t = true) :
    moveLoop cfg p u (d :: ds) index temp k = moveLoop cfg p u ds (index + 1) temp k := by
  simp only [moveLoop]
  rw [hget]
  simp [hin]

theorem moveLoop_cons_none (cfg : PSO) (p : Particle) (u : Nat → ℚ) (d : ℚ × ℚ)
    (ds : List (ℚ × ℚ)) (index : Nat) (temp : List ℚ) (k : Nat)
    (hget : temp.get? index = none) :
    moveLoop cfg p u (d :: ds) index temp k = (temp, k, some .indexError) := by
  simp only [moveLoop]
  rw [hget]

/-- After a successful per-dimension boundary loop the resulting candidate
vector lies inside the bounds, for any boundary policy, provided the bound
pairs are ordered, the random stream is well formed, and the particle's
pre-move position was in bounds (needed for REFUSE). -/
theorem moveLoop_bounds (cfg : PSO) (p : Particle) (u : Nat → ℚ)
    (hdims : dimsSorted cfg.search_dimension = true) (hu : uWF u)
    (hpos : posInBounds cfg.search_dimension p.position = true) :
    ∀ (ds : List (ℚ × ℚ)) (index : Nat) (temp : List ℚ) (k : Nat),
      (∀ m, ds.get? m = cfg.search_dimension.get? (index + m)) →
      (∀ j, j < index → ∀ d x, cfg.search_dimension.get? j = some d →
        temp.get? j = some x → inBoundsAt d x = true) →
      ∀ t1 k1, moveLoop cfg p u ds index temp k = (t1, k1, none) →
        posInBounds cfg.search_dimension t1 = true := by
  intro ds
  induction ds with
  | nil =>
    intro index temp k hds hpre t1 k1 hml
    rw [moveLoop_nil] at hml
    injection hml with h1 h2
    subst h1
    refine posInBounds_intro _ _ fun i d x hd hx => ?_
    by_cases hi : i < index
    · exact hpre i hi d x hd hx
    · exfalso
      have hm := hds (i - index)
      rw [Nat.add_sub_cancel' (Nat.le_of_not_lt hi)] at hm
      rw [hd] at hm
      simp at hm
  | cons d0 ds ih =>
    intro index temp k hds hpre t1 k1 hml
    have hd0 : cfg.search_dimension.get? index = some d0 := by
      have := hds 0
      simpa using this.symm
    rcases hget : temp.get? index with _ | t
    · rw [moveLoop_cons_none cfg p u d0 ds index temp k hget] at hml
      injection hml with h1 h2
      injection h2 with h2 h3
      cases h3
    · have hlt : index < temp.length := by
        by_contra hc
        rw [List.get?_eq_none.mpr (Nat.le_of_not_lt hc)] at hget
        cases hget
      have hds' : ∀ m, ds.get? m = cfg.search_dimension.get? (index + 1 + m) := by
        intro m
        have := hds (m + 1)
        simpa [Nat.add_assoc, Nat.add_comm 1 m] using this
      by_cases hin : inBoundsAt d0 t
      · rw [moveLoop_cons_in cfg p u d0 ds index temp k t hget hin] at hml
        refine ih (index + 1) temp k hds' ?_ t1 k1 hml
        intro j hj d x hd hx
        rcases Nat.lt_succ_iff_lt_or_eq.mp hj with hj' | hj'
        · exact hpre j hj' d x hd hx
        · subst hj'
          rw [hd0] at hd
          injection hd with hd
          rw [hget] at hx
          injection hx with hx
          rw [← hd, ← hx]
          exact hin
      · rw [Bool.not_eq_true] at hin
        rcases hpol : cfg.boundary_policy with _ | _ | _
        · -- RANDOMREINIT
          rw [moveLoop_cons_rr cfg p u d0 ds index temp k t hget hin hpol] at hml
          refine ih (index + 1) (temp.set index (uniform d0.1 d0.2 (u k))) (k + 1)
            hds' ?_ t1 k1 hml
          intro j hj d x hd hx
          rcases Nat.lt_succ_iff_lt_or_eq.mp hj with hj' | hj'
          · rw [List.get?_set_ne _ _ (Nat.ne_of_lt hj').symm] at hx
            exact hpre j hj' d x hd hx
          · subst hj'
            rw [hd0] at hd
            injection hd with hd
            rw [List.get?_set_eq, hget] at hx
            simp only [Option.map_some] at hx
            injection hx with hx
            have hmem := uniform_mem (dimsSorted_get hdims hd0) (hu k).1 (hu k).2
            rw [← hd, ← hx]
            rw [inBoundsAt, Bool.and_eq_true, decide_eq_true_eq, decide_eq_true_eq]
            exact hmem
        · -- REFUSE
          rcases hpi : p.position.get? index with _ | pi
          · rw [moveLoop_cons_refuse_none cfg p u d0 ds index temp k t hget hin hpol hpi] at hml
            injection hml with h1 h2
            injection h2 with h2 h3
            cases h3
          · rw [moveLoop_cons_refuse cfg p u d0 ds index temp k t pi hget hin hpol hpi] at hml
            refine ih (index + 1) (temp.set index pi) k hds' ?_ t1 k1 hml
            intro j hj d x hd hx
            rcases Nat.lt_succ_iff_lt_or_eq.mp hj with hj' | hj'
            · rw [List.get?_set_ne _ _ (Nat.ne_of_lt hj').symm] at hx
              exact hpre j hj' d x hd hx
            · subst hj'
              rw [hd0] at hd
              injection hd with hd
              rw [List.get?_set_eq, hget] at hx
              simp only [Option.map_some] at hx
              injection hx with hx
              rw [← hd, ← hx]
              exact posInBounds_get _ _ hpos _ d0 pi hd0 hpi
        · -- BOUNCE
          rw [moveLoop_cons_bounce cfg p u d0 ds index temp k t hget hin hpol] at hml
          injection hml with h1 h2
          injection h2 with h2 h3
          cases h3

theorem forall2_mem {R : Particle → Particle → Prop} :
    ∀ {l l' : List Particle}, List.Forall₂ R l l' →
      ∀ q ∈ l', ∃ p ∈ l, R p q := by
  intro l l' h
  induction h with
  | nil => intro q hq; simp at hq
  | cons hr hrest ih =>
    intro q hq
    rcases List.mem_cons.mp hq with hq | hq
    · subst hq
      exact ⟨_, List.mem_cons_self _ _, hr⟩
    · obtain ⟨p, hp, hpr⟩ := ih q hq
      exact ⟨p, List.mem_cons_of_mem _ hp, hpr⟩

theorem moveList_bounds (cfg : PSO) (u : Nat → ℚ)
    (hdims : dimsSorted cfg.search_dimension = true) (hu : uWF u) :
    ∀ (rest done : List Particle) (k : Nat),
      (∀ p ∈ done, posInBounds cfg.search_dimension p.position = true) →
      (∀ p ∈ rest, posInBounds cfg.search_dimension p.position = true) →
      ∀ p' ∈ (moveList cfg u done rest k).1,
        posInBounds cfg.search_dimension p'.position = true := by
  intro rest
  induction rest with
  | nil =>
    intro done k hdone hrest p' hp'
    rw [moveList_nil] at hp'
    exact hdone p' hp'
  | cons p rest ih =>
    intro done k hdone hrest p' hp'
    have hptl : ∀ q ∈ rest, posInBounds cfg.search_dimension q.position = true :=
      fun q hq => hrest q (List.mem_cons_of_mem _ hq)
    have hphd : posInBounds cfg.search_dimension p.position = true :=
      hrest p (List.mem_cons_self _ _)
    by_cases hf : p.isFrozen
    · rw [moveList_frozen cfg u done rest p k hf] at hp'
      refine ih (done ++ [p]) k ?_ hptl p' hp'
      intro q hq
      rcases List.mem_append.mp hq with hq | hq
      · exact hdone q hq
      · rw [List.mem_singleton.mp hq]
        exact hphd
    · rw [Bool.not_eq_true] at hf
      rcases hml : moveLoop cfg p u cfg.search_dimension 0 (tempPos cfg.epsilon p) k
        with ⟨t1, k1, e1⟩
      cases e1 with
      | some e =>
        rw [moveList_err cfg u done rest p k k1 t1 e hf hml] at hp'
        simp only at hp'
        rcases List.mem_append.mp hp' with hq | hq
        · exact hdone p' hq
        · rcases List.mem_cons.mp hq with hq | hq
          · rw [hq]; exact hphd
          · exact hptl p' hq
      | none =>
        rw [moveList_ok cfg u done rest p k k1 t1 hf hml] at hp'
        refine ih (done ++ [atPos p t1]) k1 ?_ hptl p' hp'
        intro q hq
        rcases List.mem_append.mp hq with hq | hq
        · exact hdone q hq
        · rw [List.mem_singleton.mp hq]
          have := moveLoop_bounds cfg p u hdims hu hphd cfg.search_dimension 0
            (tempPos cfg.epsilon p) k (fun m => by simp)
            (fun j hj => absurd hj (Nat.not_lt_zero j)) t1 k1 hml
          exact this

theorem move_particles_bounds (st : PSO) (u : Nat → ℚ) (k : Nat)
    (hdims : dimsSorted st.search_dimension = true) (hu : uWF u)
    (hin : allInBounds st = true) :
    allInBounds (move_particles st u k).1 = true := by
  rw [allInBounds, List.all_eq_true] at hin ⊢
  intro p' hp'
  have hsd : (move_particles st u k).1.search_dimension = st.search_dimension :=
    move_particles_search_dimension st u k
  rw [hsd]
  have hparts : (move_particles st u k).1.particles = (moveList st u [] st.particles k).1 := rfl
  rw [hparts] at hp'
  have := moveList_bounds st u hdims hu st.particles [] k
    (fun q hq => by simp at hq) (fun q hq => by simpa using hin q hq) p' hp'
  simpa using this

theorem assess_bounds (fn : List ℚ → ℚ) (st : PSO) (hin : allInBounds st = true) :
    allInBounds (pso_assess_fitness fn st) = true := by
  rw [allInBounds, List.all_eq_true] at hin ⊢
  intro p' hp'
  rw [assess_particles_eq] at hp'
  obtain ⟨p, hp, hpt⟩ := List.mem_map.mp hp'
  rw [← hpt]
  have hsd : (pso_assess_fitness fn st).search_dimension = st.search_dimension := rfl
  rw [hsd, assessTransform_position]
  exact hin p hp

theorem update_bounds (st : PSO) (u : Nat → ℚ) (k : Nat) (hin : allInBounds st = true) :
    allInBounds (update_particle st u k).1 = true := by
  rw [allInBounds, List.all_eq_true] at hin ⊢
  intro p' hp'
  obtain ⟨p, hp, hrel⟩ := forall2_mem (update_particle_rel st u k) p' hp'
  rw [update_particle_search_dimension, hrel.1]
  exact hin p hp

theorem iteration_search_dimension (fn : List ℚ → ℚ) (u : Nat → ℚ) (st : PSO) (k : Nat) :
    (iteration fn u st k).1.search_dimension = st.search_dimension := by
  rcases hup : update_particle (pso_assess_fitness fn st) u k with ⟨st2, k2, e2⟩
  have h2 : st2.search_dimension = st.search_dimension := by
    have := update_particle_search_dimension (pso_assess_fitness fn st) u k
    rw [hup] at this
    exact this
  cases e2 with
  | some e => rw [iteration_err fn u st st2 k k2 e hup]; exact h2
  | none => rw [iteration_ok fn u st st2 k k2 hup, move_particles_search_dimension]; exact h2

theorem iteration_bounds (fn : List ℚ → ℚ) (u : Nat → ℚ) (st : PSO) (k : Nat)
    (hdims : dimsSorted st.search_dimension = true) (hu : uWF u)
    (hin : allInBounds st = true) : allInBounds (iteration fn u st k).1 = true := by
  have h1 := assess_bounds fn st hin
  rcases hup : update_particle (pso_assess_fitness fn st) u k with ⟨st2, k2, e2⟩
  have h2 : allInBounds st2 = true := by
    have := update_bounds (pso_assess_fitness fn st) u k h1
    rw [hup] at this
    exact this
  have hsd2 : st2.search_dimension = st.search_dimension := by
    have := update_particle_search_dimension (pso_assess_fitness fn st) u k
    rw [hup] at this
    exact this
  cases e2 with
  | some e => rw [iteration_err fn u st st2 k k2 e hup]; exact h2
  | none =>
    rw [iteration_ok fn u st st2 k k2 hup]
    exact move_particles_bounds st2 u k2 (by rw [hsd2]; exact hdims) hu h2

theorem runLoop_bounds (fn : List ℚ → ℚ) (u : Nat → ℚ) (hu : uWF u) :
    ∀ (n : Nat) (st : PSO) (k : Nat), dimsSorted st.search_dimension = true →
      allInBounds st = true → allInBounds (runLoop fn u n st k).1 = true := by
  intro n
  induction n with
  | zero => intro st k _ hin; exact hin
  | succ n ih =>
    intro st k hdims hin
    rcases hit : iteration fn u st k with ⟨st1, k1, e1⟩
    have h1 : allInBounds st1 = true := by
      have := iteration_bounds fn u st k hdims hu hin
      rw [hit] at this
      exact this
    cases e1 with
    | some e => rw [runLoop_succ_err fn u n st st1 k k1 e hit]; exact h1
    | none =>
      rw [runLoop_succ_ok fn u n st st1 k k1 hit]
      refine ih st1 k1 ?_ h1
      have := iteration_search_dimension fn u st k
      rw [hit] at this
      rw [this]
      exact hdims

/-- C2: under the RANDOMREINIT and REFUSE boundary policies, if every
per-dimension bound pair satisfies `low ≤ high`, the random stream is well
formed and every particle's position starts within bounds, then after any
number of iterations (hence after every completed move phase, which ends
each iteration) every dimension of every particle's position still lies
within its `[low, high]` bounds. -/
theorem c2_positions_in_bounds (fn : List ℚ → ℚ) (u : Nat → ℚ) (st : PSO)
    (hpol : st.boundary_policy = .RANDOMREINIT ∨ st.boundary_policy = .REFUSE)
    (hdims : dimsSorted st.search_dimension = true) (hu : uWF u)
    (hin : allInBounds st = true) :
    ∀ (n k : Nat), allInBounds (runLoop fn u n st k).1 = true :=
  fun n k => runLoop_bounds fn u hu n st k hdims hin

def c2st : PSO :=
  { PSO.init with
      search_dimension := [(0, 10)]
      search_dimension_set := true
      boundary_policy := .REFUSE
      best := some ⟨[5], 1⟩
      particles := [wLive] }

theorem c2_witness :
    (c2st.boundary_policy = .RANDOMREINIT ∨ c2st.boundary_policy = .REFUSE) ∧
    dimsSorted c2st.search_dimension = true ∧ allInBounds c2st = true ∧
    allInBounds (runLoop (fun _ => 0) (fun _ => 0) 1 c2st 0).1 = true :=
  ⟨Or.inr (by decide), by decide, by decide,
    c2_positions_in_bounds (fun _ => 0) (fun _ => 0) c2st (Or.inr (by decide))
      (by decide) (fun n => ⟨le_rfl, zero_le_one⟩) (by decide) 1 0⟩

/-! ### Claim C6: what `run()` resets -/

def c6st : PSO :=
  { PSO.init with
      swarm_size := 0
      search_dimension := [(0, 10)]
      search_dimension_set := true
      previous_best := some ⟨[], 5⟩ }

/-- C6 counterexample: the claim says both `best` and `previous_best` are
reset to a very-large-negative sentinel at the start of every `run()`.  On
the state `c6st`, whose `previous_best` carries the non-sentinel fitness
`5` (as it does at the start of a second run on the same optimiser
instance), `run` resets `best` to `FitnessLoc([], -9999.0)` but leaves
`previous_best` at fitness `5`, which is not a very large negative value. -/
theorem c6_counterexample :
    (PSO.run (fun _ => 0) (fun _ => 0) 0 c6st 0).1.previous_best = some ⟨[], 5⟩ ∧
    (PSO.run (fun _ => 0) (fun _ => 0) 0 c6st 0).1.best = some ⟨[], -9999⟩ ∧
    ((0 : ℚ) < 5) := by
  refine ⟨by decide, by decide, by decide⟩

/-- C6 (amended): every `run()` invocation starts by instantiating a fresh
swarm and topology and resetting `best` to the sentinel
`FitnessLoc([], -9999.0)` before the iteration loop; `previous_best` is
*not* reset — it keeps whatever value it had (initially
`FitnessLoc([], -999999.0)` from `__init__`, and afterwards whatever the
previous run left in it). -/
theorem c6_run_reset (fn : List ℚ → ℚ) (u : Nat → ℚ) (st : PSO) (k max_iter : Nat)
    (hset : st.search_dimension_set = true) :
    PSO.run fn u max_iter st k
      = runLoop fn u max_iter (runStart st u k).1 (runStart st u k).2 ∧
    (runStart st u k).1.best = some ⟨[], -9999⟩ ∧
    (runStart st u k).1.previous_best = st.previous_best := by
  refine ⟨by simp [PSO.run, hset], rfl, rfl⟩

theorem c6_witness :
    c6st.search_dimension_set = true ∧
    (runStart c6st (fun _ => 0) 0).1.best = some ⟨[], -9999⟩ ∧
    (runStart c6st (fun _ => 0) 0).1.previous_best = c6st.previous_best :=
  ⟨by decide,
   (c6_run_reset (fun _ => 0) (fun _ => 0) c6st 0 0 (by decide)).2.1,
   (c6_run_reset (fun _ => 0) (fun _ => 0) c6st 0 0 (by decide)).2.2⟩

/-! ### Claim C8: epsilon = 0 -/

theorem set_get_self :
    ∀ (l : List ℚ) (i : Nat) (a : ℚ), l.get? i = some a → l.set i a = l := by
  intro l
  induction l with
  | nil => intro i a h; simp at h
  | cons x l ih =>
    intro i a h
    cases i with
    | zero =>
      simp only [List.get?] at h
      injection h with h
      rw [List.set, h]
    | succ i =>
      simp only [List.get?] at h
      rw [List.set, ih i a h]

theorem zipWith_eps_zero :
    ∀ (xs ys : List ℚ), xs.length ≤ ys.length →
      List.zipWith (fun x v => x + (0:ℚ) * v) xs ys = xs := by
  intro xs
  induction xs with
  | nil => intro ys h; simp
  | cons x xs ih =>
    intro ys h
    cases ys with
    | nil => simp at h
    | cons y ys =>
      show (x + 0 * y) :: List.zipWith (fun x v => x + (0:ℚ) * v) xs ys = x :: xs
      rw [zero_mul, add_zero, ih ys (Nat.le_of_succ_le_succ h)]

theorem tempPos_eps_zero (p : Particle) (h : p.position.length ≤ p.velocity.length) :
    tempPos 0 p = p.position :=
  zipWith_eps_zero p.position p.velocity h

/-- With a candidate equal to the current position, the boundary loop is the
identity (and consumes no randomness): under REFUSE every out-of-bounds
dimension is reset to the value it already has, and under RANDOMREINIT with
an in-bounds position no dimension is ever out of bounds. -/
theorem moveLoop_fix (cfg : PSO) (p : Particle) (u : Nat → ℚ)
    (hcase : cfg.boundary_policy = .REFUSE ∨
      (cfg.boundary_policy = .RANDOMREINIT ∧
        posInBounds cfg.search_dimension p.position = true)) :
    ∀ (ds : List (ℚ × ℚ)) (index k : Nat),
      (∀ m, ds.get? m = cfg.search_dimension.get? (index + m)) →
      (∀ m, m < ds.length → index + m < p.position.length) →
      moveLoop cfg p u ds index p.position k = (p.position, k, none) := by
  intro ds
  induction ds with
  | nil => intro index k _ _; rfl
  | cons d0 ds ih =>
    intro index k hds hlen
    have hd0 : cfg.search_dimension.get? index = some d0 := by
      have := hds 0
      simpa using this.symm
    have hidx : index < p.position.length := by
      have := hlen 0 (Nat.succ_pos _)
      simpa using this
    rcases hget : p.position.get? index with _ | t
    · rw [List.get?_eq_none] at hget
      omega
    · have hds' : ∀ m, ds.get? m = cfg.search_dimension.get? (index + 1 + m) := by
        intro m
        have := hds (m + 1)
        simpa [Nat.add_assoc, Nat.add_comm 1 m] using this
      have hlen' : ∀ m, m < ds.length → index + 1 + m < p.position.length := by
        intro m hm
        have := hlen (m + 1) (Nat.succ_lt_succ hm)
        omega
      by_cases hin : inBoundsAt d0 t
      · rw [moveLoop_cons_in cfg p u d0 ds index p.position k t hget hin]
        exact ih (index + 1) k hds' hlen'
      · rw [Bool.not_eq_true] at hin
        rcases hcase with hpol | ⟨hpol, hbnd⟩
        · rw [moveLoop_cons_refuse cfg p u d0 ds index p.position k t t hget hin hpol hget,
            set_get_self p.position index t hget]
          exact ih (index + 1) k hds' hlen'
        · exact absurd (posInBounds_get _ _ hbnd index d0 t hd0 hget) (by rw [hin]; simp)

theorem moveList_eps_zero (cfg : PSO) (u : Nat → ℚ) (heps : cfg.epsilon = 0)
    (hpol : cfg.boundary_policy = .REFUSE ∨ cfg.boundary_policy = .RANDOMREINIT) :
    ∀ (rest done : List Particle) (k : Nat),
      (∀ p ∈ rest, cfg.search_dimension.length ≤ p.position.length ∧
        p.position.length ≤ p.velocity.length ∧
        (cfg.boundary_policy = .RANDOMREINIT →
          posInBounds cfg.search_dimension p.position = true)) →
      moveList cfg u done rest k = (done ++ rest, k, none) := by
  intro rest
  induction rest with
  | nil => intro done k _; simp [moveList_nil]
  | cons p rest ih =>
    intro done k hrest
    have hp := hrest p (List.mem_cons_self _ _)
    have htail : ∀ q ∈ rest, cfg.search_dimension.length ≤ q.position.length ∧
        q.position.length ≤ q.velocity.length ∧
        (cfg.boundary_policy = .RANDOMREINIT →
          posInBounds cfg.search_dimension q.position = true) :=
      fun q hq => hrest q (List.mem_cons_of_mem _ hq)
    by_cases hf : p.isFrozen
    · rw [moveList_frozen cfg u done rest p k hf, ih (done ++ [p]) k htail]
      simp
    · rw [Bool.not_eq_true] at hf
      have htemp : tempPos cfg.epsilon p = p.position := by
        rw [heps]
        exact tempPos_eps_zero p hp.2.1
      have hcase : cfg.boundary_policy = .REFUSE ∨
          (cfg.boundary_policy = .RANDOMREINIT ∧
            posInBounds cfg.search_dimension p.position = true) := by
        rcases hpol with h | h
        · exact Or.inl h
        · exact Or.inr ⟨h, hp.2.2 h⟩
      have hml : moveLoop cfg p u cfg.search_dimension 0 (tempPos cfg.epsilon p) k
          = (p.position, k, none) := by
        rw [htemp]
        refine moveLoop_fix cfg p u hcase cfg.search_dimension 0 k (fun m => by simp) ?_
        intro m hm
        have := hp.1
        omega
      rw [moveList_ok cfg u done rest p k k p.position hf hml]
      have hself : atPos p p.position = p := rfl
      rw [hself, ih (done ++ [p]) k htail]
      simp

/-- The conditions under which an `epsilon = 0` move phase is a no-op. -/
def epsZeroCond (st : PSO) : Prop :=
  st.epsilon = 0 ∧ swarmWF st = true ∧
  (st.boundary_policy = .REFUSE ∨
    (st.boundary_policy = .RANDOMREINIT ∧ allInBounds st = true))

theorem swarmWF_mem {st : PSO} (hwf : swarmWF st = true) {p : Particle}
    (hp : p ∈ st.particles) :
    p.position.length = st.search_dimension.length ∧
    p.velocity.length = st.search_dimension.length := by
  rw [swarmWF, List.all_eq_true] at hwf
  have := hwf p hp
  rw [Bool.and_eq_true, beq_iff_eq, beq_iff_eq] at this
  exact this

theorem move_particles_eps_zero (st : PSO) (u : Nat → ℚ) (k : Nat)
    (hc : epsZeroCond st) : move_particles st u k = (st, k, none) := by
  obtain ⟨heps, hwf, hpol⟩ := hc
  have hpol' : st.boundary_policy = .REFUSE ∨ st.boundary_policy = .RANDOMREINIT := by
    rcases hpol with h | h
    · exact Or.inl h
    · exact Or.inr h.1
  have hml := moveList_eps_zero st u heps hpol' st.particles [] k ?_
  · show ((⟨st.swarm_size, st.num_informants, st.boundary, st.alpha, st.beta,
      st.gamma, st.delta, st.epsilon, st.boundary_policy, st.search_dimension,
      st.search_dimension_set, st.best, st.previous_best,
      (moveList st u [] st.particles k).1⟩ : PSO), (moveList st u [] st.particles k).2)
      = (st, k, none)
    rw [hml]
    rfl
  · intro p hp
    obtain ⟨h1, h2⟩ := swarmWF_mem hwf hp
    refine ⟨le_of_eq h1.symm, le_of_eq (h1.trans h2.symm), fun hrr => ?_⟩
    rcases hpol with h | h
    · rw [h] at hrr; cases hrr
    · rw [allInBounds, List.all_eq_true] at h
      exact h.2 p hp

theorem assess_swarmWF (fn : List ℚ → ℚ) (st : PSO) (hwf : swarmWF st = true) :
    swarmWF (pso_assess_fitness fn st) = true := by
  rw [swarmWF, List.all_eq_true]
  intro p' hp'
  rw [assess_particles_eq] at hp'
  obtain ⟨p, hp, hpt⟩ := List.mem_map.mp hp'
  obtain ⟨h1, h2⟩ := swarmWF_mem hwf hp
  rw [← hpt]
  have hsd : (pso_assess_fitness fn st).search_dimension = st.search_dimension := rfl
  rw [Bool.and_eq_true, beq_iff_eq, beq_iff_eq, hsd, assessTransform_position,
    assessTransform_velocity]
  exact ⟨h1, h2⟩

theorem update_swarmWF (st : PSO) (u : Nat → ℚ) (k : Nat) (hwf : swarmWF st = true) :
    swarmWF (update_particle st u k).1 = true := by
  rw [swarmWF, List.all_eq_true]
  intro q hq
  obtain ⟨p, hp, hrel⟩ := forall2_mem (update_particle_rel st u k) q hq
  obtain ⟨h1, h2⟩ := swarmWF_mem hwf hp
  rw [Bool.and_eq_true, beq_iff_eq, beq_iff_eq, update_particle_search_dimension,
    hrel.1, hrel.2.2.2.2.1]
  exact ⟨h1, h2⟩

theorem forall2_get_none {R : Particle → Particle → Prop} {l l' : List Particle}
    (h : List.Forall₂ R l l') {i : Nat} (hi : l.get? i = none) : l'.get? i = none := by
  rw [List.get?_eq_none] at hi ⊢
  rw [← h.length_eq]
  exact hi

theorem assess_positions (fn : List ℚ → ℚ) (st : PSO) (i : Nat) :
    ((pso_assess_fitness fn st).particles.get? i).map Particle.position
      = (st.particles.get? i).map Particle.position := by
  rw [assess_particles_eq, List.get?_map]
  cases st.particles.get? i with
  | none => rfl
  | some p => simp [assessTransform_position]

theorem update_positions (st : PSO) (u : Nat → ℚ) (k i : Nat) :
    ((update_particle st u k).1.particles.get? i).map Particle.position
      = (st.particles.get? i).map Particle.position := by
  rcases hp : st.particles.get? i with _ | p
  · rw [forall2_get_none (update_particle_rel st u k) hp]
  · obtain ⟨q, hq, hrel⟩ := forall2_get (update_particle_rel st u k) i p hp
    rw [hq]
    simp [hrel.1]

theorem epsZeroCond_assess (fn : List ℚ → ℚ) (st : PSO) (hc : epsZeroCond st) :
    epsZeroCond (pso_assess_fitness fn st) := by
  obtain ⟨heps, hwf, hpol⟩ := hc
  refine ⟨heps, assess_swarmWF fn st hwf, ?_⟩
  rcases hpol with h | h
  · exact Or.inl h
  · exact Or.inr ⟨h.1, assess_bounds fn st h.2⟩

theorem epsZeroCond_update (st : PSO) (u : Nat → ℚ) (k : Nat) (hc : epsZeroCond st) :
    epsZeroCond (update_particle st u k).1 := by
  obtain ⟨heps, hwf, hpol⟩ := hc
  refine ⟨heps, update_swarmWF st u k hwf, ?_⟩
  rcases hpol with h | h
  · exact Or.inl h
  · exact Or.inr ⟨h.1, update_bounds st u k h.2⟩

theorem iteration_eps_zero (fn : List ℚ → ℚ) (u : Nat → ℚ) (st : PSO) (k : Nat)
    (hc : epsZeroCond st) :
    (∀ i, ((iteration fn u st k).1.particles.get? i).map Particle.position
      = (st.particles.get? i).map Particle.position) ∧
    epsZeroCond (iteration fn u st k).1 := by
  have hc1 := epsZeroCond_assess fn st hc
  rcases hup : update_particle (pso_assess_fitness fn st) u k with ⟨st2, k2, e2⟩
  have hc2 : epsZeroCond st2 := by
    have := epsZeroCond_update (pso_assess_fitness fn st) u k hc1
    rw [hup] at this
    exact this
  have hpos2 : ∀ i, (st2.particles.get? i).map Particle.position
      = (st.particles.get? i).map Particle.position := by
    intro i
    have h1 := update_positions (pso_assess_fitness fn st) u k i
    rw [hup] at h1
    rw [h1, assess_positions]
  cases e2 with
  | some e =>
    rw [iteration_err fn u st st2 k k2 e hup]
    exact ⟨hpos2, hc2⟩
  | none =>
    rw [iteration_ok fn u st st2 k k2 hup, move_particles_eps_zero st2 u k2 hc2]
    exact ⟨hpos2, hc2⟩

theorem runLoop_eps_zero (fn : List ℚ → ℚ) (u : Nat → ℚ) :
    ∀ (n : Nat) (st : PSO) (k : Nat), epsZeroCond st →
      ∀ i, ((runLoop fn u n st k).1.particles.get? i).map Particle.position
        = (st.particles.get? i).map Particle.position := by
  intro n
  induction n with
  | zero => intro st k _ i; rfl
  | succ n ih =>
    intro st k hc i
    rcases hit : iteration fn u st k with ⟨st1, k1, e1⟩
    have h1 := iteration_eps_zero fn u st k hc
    rw [hit] at h1
    cases e1 with
    | some e => rw [runLoop_succ_err fn u n st st1 k k1 e hit]; exact h1.1 i
    | none =>
      rw [runLoop_succ_ok fn u n st st1 k k1 hit]
      rw [ih st1 k1 h1.2 i, h1.1 i]

/-- C8 (amended): with `epsilon = 0` the move phase is the identity — and
hence no particle's position ever changes during the run — *provided* the
boundary policy is REFUSE, or it is RANDOMREINIT and every position is
within bounds (with per-dimension vectors of the right length).  The
unamended claim is false: under RANDOMREINIT, a dimension whose current
position is out of bounds is resampled even though `epsilon = 0` moves
nobody (see the counterexample, which uses the default bound `(1, -1)`
under which every position is out of bounds). -/
theorem c8_epsilon_zero (fn : List ℚ → ℚ) (u : Nat → ℚ) (st : PSO)
    (heps : st.epsilon = 0)
    (hpol : st.boundary_policy = .REFUSE ∨
      (st.boundary_policy = .RANDOMREINIT ∧ allInBounds st = true))
    (hwf : swarmWF st = true) :
    (∀ k, move_particles st u k = (st, k, none)) ∧
    ∀ (n k i : Nat), ((runLoop fn u n st k).1.particles.get? i).map Particle.position
      = (st.particles.get? i).map Particle.position :=
  ⟨fun k => move_particles_eps_zero st u k ⟨heps, hwf, hpol⟩,
   fun n k i => runLoop_eps_zero fn u n st k ⟨heps, hwf, hpol⟩ i⟩

def c8p : Particle :=
  { position := [0], velocity := [1], fitness_loc := none,
    personal_fittest_loc := none, informants := [], velocity_list := [] }

def c8st : PSO :=
  { PSO.init with
      epsilon := 0
      search_dimension := [(1, -1)]
      search_dimension_set := true
      best := some ⟨[0], 0⟩
      particles := [c8p] }

/-- C8 counterexample: with `epsilon = 0` under the default RANDOMREINIT
policy and the default bound `(1, -1)`, the particle at position `[0]`
(out of bounds for the test `1 ≤ x ≤ -1`) is moved by the move phase to the
freshly resampled position `[1]` (stream draw `0`), so the claim that with
`epsilon = 0` no particle's position ever changes is false. -/
theorem c8_counterexample :
    c8st.epsilon = 0 ∧
    (c8st.particles.get? 0).map Particle.position = some [0] ∧
    ((move_particles c8st (fun _ => 0) 0).1.particles.get? 0).map Particle.position
      = some [1] ∧
    (1 : ℚ) ≠ 0 := by
  refine ⟨by decide, by decide, ?_, by decide⟩
  norm_num [move_particles, moveList, moveLoop, tempPos, uniform, inBoundsAt, atPos,
    Particle.isFrozen, c8st, c8p, PSO.init]

def c8wst : PSO :=
  { PSO.init with
      epsilon := 0
      boundary_policy := .REFUSE
      search_dimension := [(0, 10)]
      search_dimension_set := true
      best := some ⟨[5], 1⟩
      particles := [wLive] }

theorem c8_witness :
    c8wst.epsilon = 0 ∧ c8wst.boundary_policy = .REFUSE ∧ swarmWF c8wst = true ∧
    move_particles c8wst (fun _ => 0) 0 = (c8wst, 0, none) :=
  ⟨by decide, by decide, by decide,
   (c8_epsilon_zero (fun _ => 0) (fun _ => 0) c8wst (by decide)
      (Or.inl (by decide)) (by decide)).1 0⟩

/-! ### Claim C4: the BOUNCE policy -/

theorem moveLoop_bounce (cfg : PSO) (p : Particle) (u : Nat → ℚ)
    (hpol : cfg.boundary_policy = .BOUNCE) :
    ∀ (ds : List (ℚ × ℚ)) (index : Nat) (temp : List ℚ) (k : Nat),
      (∀ m, m < ds.length → index + m < temp.length) →
      moveLoop cfg p u ds index temp k = (temp, k, some .notImplemented) ∨
      (moveLoop cfg p u ds index temp k = (temp, k, none) ∧
        ∀ m d, ds.get? m = some d →
          ∃ t, temp.get? (index + m) = some t ∧ inBoundsAt d t = true) := by
  intro ds
  induction ds with
  | nil =>
    intro index temp k _
    refine Or.inr ⟨rfl, ?_⟩
    intro m d hm
    simp at hm
  | cons d0 ds ih =>
    intro index temp k hlen
    have hidx : index < temp.length := by
      have := hlen 0 (Nat.succ_pos _)
      simpa using this
    rcases hget : temp.get? index with _ | t
    · rw [List.get?_eq_none] at hget
      omega
    · by_cases hin : inBoundsAt d0 t
      · rw [moveLoop_cons_in cfg p u d0 ds index temp k t hget hin]
        rcases ih (index + 1) temp k (fun m hm => by
            have := hlen (m + 1) (Nat.succ_lt_succ hm); omega) with h | ⟨h, hall⟩
        · exact Or.inl h
        · refine Or.inr ⟨h, ?_⟩
          intro m d hmd
          cases m with
          | zero =>
            simp only [List.get?] at hmd
            injection hmd with hmd
            exact ⟨t, by simpa using hget, by rw [← hmd]; exact hin⟩
          | succ m =>
            have := hall m d hmd
            obtain ⟨t', ht', hin'⟩ := this
            exact ⟨t', by rw [show index + (m + 1) = index + 1 + m by omega]; exact ht', hin'⟩
      · rw [Bool.not_eq_true] at hin
        exact Or.inl (moveLoop_cons_bounce cfg p u d0 ds index temp k t hget hin hpol)

theorem moveList_get_done (cfg : PSO) (u : Nat → ℚ) (rest done : List Particle)
    (k j : Nat) (hj : j < done.length) :
    (moveList cfg u done rest k).1.get? j = done.get? j := by
  obtain ⟨rest', h1, _⟩ := moveList_shape cfg u rest done k
  rw [h1, List.get?_append hj]

theorem moveList_bounce (cfg : PSO) (u : Nat → ℚ)
    (hpol : cfg.boundary_policy = .BOUNCE) :
    ∀ (rest done : List Particle) (k : Nat),
      (∀ p ∈ rest, cfg.search_dimension.length ≤ p.position.length ∧
        cfg.search_dimension.length ≤ p.velocity.length) →
      (moveList cfg u done rest k).2.1 = k ∧
      (∀ e, (moveList cfg u done rest k).2.2 = some e → e = .notImplemented) ∧
      ∀ j q, rest.get? j = some q →
        ((moveList cfg u done rest k).1.get? (done.length + j) = some q ∨
         ((moveList cfg u done rest k).1.get? (done.length + j)
            = some (atPos q (tempPos cfg.epsilon q)) ∧
          posInBounds cfg.search_dimension (tempPos cfg.epsilon q) = true)) := by
  intro rest
  induction rest with
  | nil =>
    intro done k _
    refine ⟨rfl, ?_, ?_⟩
    · intro e he
      rw [moveList_nil] at he
      cases he
    · intro j q hq
      simp at hq
  | cons p rest ih =>
    intro done k hrest
    have hp := hrest p (List.mem_cons_self _ _)
    have htail : ∀ q ∈ rest, cfg.search_dimension.length ≤ q.position.length ∧
        cfg.search_dimension.length ≤ q.velocity.length :=
      fun q hq => hrest q (List.mem_cons_of_mem _ hq)
    by_cases hf : p.isFrozen
    · rw [moveList_frozen cfg u done rest p k hf]
      obtain ⟨hk, herr, hget⟩ := ih (done ++ [p]) k htail
      refine ⟨hk, herr, ?_⟩
      intro j q hq
      cases j with
      | zero =>
        simp only [List.get?] at hq
        injection hq with hq
        subst hq
        left
        rw [Nat.add_zero, moveList_get_done cfg u rest (done ++ [p]) k done.length
          (by simp), List.get?_concat_length]
      | succ j =>
        have := hget j q hq
        rw [show done.length + (j + 1) = (done ++ [p]).length + j by simp; omega]
        exact this
    · rw [Bool.not_eq_true] at hf
      have hlen : ∀ m, m < cfg.search_dimension.length →
          0 + m < (tempPos cfg.epsilon p).length := by
        intro m hm
        rw [tempPos, List.length_zipWith]
        have := hp.1
        have := hp.2
        omega
      rcases moveLoop_bounce cfg p u hpol cfg.search_dimension 0
        (tempPos cfg.epsilon p) k hlen with hml | ⟨hml, hall⟩
      · rw [moveList_err cfg u done rest p k k (tempPos cfg.epsilon p)
          .notImplemented hf hml]
        refine ⟨rfl, ?_, ?_⟩
        · intro e he
          injection he with he
          exact he.symm
        · intro j q hq
          left
          rw [get?_append_offset]
          exact hq
      · rw [moveList_ok cfg u done rest p k k (tempPos cfg.epsilon p) hf hml]
        obtain ⟨hk, herr, hget⟩ := ih (done ++ [atPos p (tempPos cfg.epsilon p)]) k htail
        refine ⟨hk, herr, ?_⟩
        intro j q hq
        cases j with
        | zero =>
          simp only [List.get?] at hq
          injection hq with hq
          subst hq
          right
          constructor
          · rw [Nat.add_zero, moveList_get_done cfg u rest
              (done ++ [atPos p (tempPos cfg.epsilon p)]) k done.length (by simp),
              List.get?_concat_length]
          · refine posInBounds_intro _ _ fun i d x hd hx => ?_
            have hi : i < cfg.search_dimension.length := by
              by_contra hc
              rw [List.get?_eq_none.mpr (Nat.le_of_not_lt hc)] at hd
              cases hd
            obtain ⟨t, ht, hint⟩ := hall i d hd
            rw [Nat.zero_add] at ht
            rw [ht] at hx
            injection hx with hx
            rw [← hx]
            exact hint
        | succ j =>
          have := hget j q hq
          rw [show done.length + (j + 1)
            = (done ++ [atPos p (tempPos cfg.epsilon p)]).length + j by simp; omega]
          exact this

/-- C4 (amended): when BOUNCE is selected, at the first out-of-bounds
dimension of the first out-of-bounds particle the move phase raises exactly
`NotImplementedError`; the move phase consumes no randomness and never
executes the defective reflection arithmetic — every particle's position is
either untouched (in particular the erroring particle and all particles
after it in the sweep) or is the unmodified candidate
`position + epsilon * velocity`, which was within bounds in every
dimension; and the move phase never modifies a velocity.  The original
claim's stronger statement — that at the moment the error surfaces every
particle's position *and velocity* are unchanged from their values at the
start of the run — is false, because the assessment and velocity-update
phases of the same iteration have already run (see the counterexample). -/
theorem c4_bounce_raises (st : PSO) (u : Nat → ℚ) (k : Nat)
    (hpol : st.boundary_policy = .BOUNCE) (hwf : swarmWF st = true) :
    (move_particles st u k).2.1 = k ∧
    (∀ e, (move_particles st u k).2.2 = some e → e = .notImplemented) ∧
    (∀ j q, st.particles.get? j = some q →
      ((move_particles st u k).1.particles.get? j = some q ∨
       ((move_particles st u k).1.particles.get? j
          = some (atPos q (tempPos st.epsilon q)) ∧
        posInBounds st.search_dimension (tempPos st.epsilon q) = true))) ∧
    (∀ j q, st.particles.get? j = some q →
      ∃ q', (move_particles st u k).1.particles.get? j = some q' ∧
        q'.velocity = q.velocity) := by
  have hlens : ∀ p ∈ st.particles, st.search_dimension.length ≤ p.position.length ∧
      st.search_dimension.length ≤ p.velocity.length := by
    intro p hp
    obtain ⟨h1, h2⟩ := swarmWF_mem hwf hp
    exact ⟨le_of_eq h1.symm, le_of_eq h2.symm⟩
  obtain ⟨hk, herr, hget⟩ := moveList_bounce st u hpol st.particles [] k hlens
  refine ⟨hk, herr, ?_, ?_⟩
  · intro j q hq
    have := hget j q hq
    simpa using this
  · intro j q hq
    obtain ⟨q', hq', hrel⟩ := forall2_get (move_particles_rel st u k) j q hq
    exact ⟨q', hq', hrel.1⟩

def c4p0 : Particle :=
  { position := [5], velocity := [1], fitness_loc := none,
    personal_fittest_loc := none, informants := [1], velocity_list := [] }

def c4p1 : Particle :=
  { position := [0], velocity := [1], fitness_loc := none,
    personal_fittest_loc := none, informants := [0], velocity_list := [] }

def c4st : PSO :=
  { PSO.init with
      swarm_size := 2
      boundary_policy := .BOUNCE
      alpha := 2
      beta := 0
      gamma := 0
      delta := 0
      epsilon := 10
      search_dimension := [(0, 10)]
      search_dimension_set := true
      best := some ⟨[], -9999⟩
      particles := [c4p0, c4p1] }

/-- C4 counterexample: on a BOUNCE run whose first iteration moves particle
0 out of bounds, the `NotImplementedError` does surface — but only in the
move phase, after the assessment and velocity-update phases of the same
iteration already ran: at the moment of the error, particle 0's velocity is
`[2]` (rewritten by the velocity update with `alpha = 2`), not its
start-of-run value `[1]`, refuting the claim that the error is raised
before any particle state is mutated. -/
theorem c4_counterexample :
    (runLoop (fun _ => 0) (fun _ => 0) 1 c4st 0).2.2 = some .notImplemented ∧
    ((runLoop (fun _ => 0) (fun _ => 0) 1 c4st 0).1.particles.get? 0).map
      Particle.velocity = some [2] ∧
    (c4st.particles.get? 0).map Particle.velocity = some [1] ∧
    ([2] : List ℚ) ≠ [1] := by
  refine ⟨?_, ?_, by decide, by norm_num⟩ <;>
  norm_num [runLoop, iteration, pso_assess_fitness, assessList, Particle.assess_fitness,
    Particle.isFrozen, FitnessLoc.gtb, update_particle, updateList, scanInformants,
    velLoop, velStep, uniform, withHist, withNewVel, move_particles, moveList,
    moveLoop, tempPos, inBoundsAt, atPos, c4st, c4p0, c4p1, PSO.init,
    List.range_succ, List.range_zero]

def c4wst : PSO :=
  { PSO.init with
      boundary_policy := .BOUNCE
      search_dimension := [(0, 10)]
      search_dimension_set := true
      best := some ⟨[5], 1⟩
      particles := [wLive] }

theorem c4_witness :
    c4wst.boundary_policy = .BOUNCE ∧ swarmWF c4wst = true ∧
    (move_particles c4wst (fun _ => 0) 5).2.1 = 5 ∧
    (∀ e, (move_particles c4wst (fun _ => 0) 5).2.2 = some e →
      e = .notImplemented) :=
  ⟨by decide, by decide,
   (c4_bounce_raises c4wst (fun _ => 0) 5 (by decide) (by decide)).1,
   (c4_bounce_raises c4wst (fun _ => 0) 5 (by decide) (by decide)).2.1⟩

/-! ### Claim C7: the informant topology -/

theorem get_not_mem_eraseIdx :
    ∀ (l : List Nat) (i : Nat) (a : Nat), l.Nodup → l.get? i = some a →
      a ∉ l.eraseIdx i := by
  intro l
  induction l with
  | nil => intro i a _ h; simp at h
  | cons x l ih =>
    intro i a hnd h
    cases i with
    | zero =>
      simp only [List.get?] at h
      injection h with h
      subst h
      simpa [List.eraseIdx] using (List.nodup_cons.mp hnd).1
    | succ i =>
      simp only [List.get?] at h
      intro hmem
      simp only [List.eraseIdx] at hmem
      rcases List.mem_cons.mp hmem with h1 | h1
      · exact (List.nodup_cons.mp hnd).1 (h1 ▸ List.get?_mem h)
      · exact ih i a (List.nodup_cons.mp hnd).2 h h1

theorem drawNat_lt (n : Nat) (x : ℚ) (hn : 0 < n) : drawNat n x < n := by
  rw [drawNat]
  omega

theorem choice_spec (u : Nat → ℚ) :
    ∀ (m : Nat) (pool : List Nat) (k : Nat), m ≤ pool.length → pool.Nodup →
      (choiceNoReplace u pool m k).1.length = m ∧
      (choiceNoReplace u pool m k).1.Nodup ∧
      ∀ x ∈ (choiceNoReplace u pool m k).1, x ∈ pool := by
  intro m
  induction m with
  | zero =>
    intro pool k _ _
    exact ⟨rfl, List.nodup_nil, fun x hx => by simp [choiceNoReplace] at hx⟩
  | succ m ih =>
    intro pool k hm hnd
    have hpos : 0 < pool.length := Nat.lt_of_lt_of_le (Nat.succ_pos m) hm
    have hne : pool.isEmpty = false := by
      cases pool with
      | nil => simp at hpos
      | cons a l => rfl
    have hi : drawNat pool.length (u k) < pool.length := drawNat_lt _ _ hpos
    have hlen' : m ≤ (pool.eraseIdx (drawNat pool.length (u k))).length := by
      rw [List.length_eraseIdx]
      simp only [hi, if_true]
      omega
    have hnd' : (pool.eraseIdx (drawNat pool.length (u k))).Nodup :=
      List.Nodup.eraseIdx _ hnd
    obtain ⟨ihl, ihn, ihm⟩ := ih (pool.eraseIdx (drawNat pool.length (u k))) (k + 1)
      hlen' hnd'
    have hgd : pool.get? (drawNat pool.length (u k))
        = some (pool.getD (drawNat pool.length (u k)) 0) := by
      rcases hg : pool.get? (drawNat pool.length (u k)) with _ | a
      · rw [List.get?_eq_none] at hg
        omega
      · rw [List.getD_eq_getElem?_getD, ← List.get?_eq_getElem?, hg]
        rfl
    have hstep : choiceNoReplace u pool (m + 1) k
        = (pool.getD (drawNat pool.length (u k)) 0 ::
            (choiceNoReplace u (pool.eraseIdx (drawNat pool.length (u k))) m (k + 1)).1,
           (choiceNoReplace u (pool.eraseIdx (drawNat pool.length (u k))) m (k + 1)).2) := by
      simp [choiceNoReplace, hne]
    rw [hstep]
    refine ⟨by simp [ihl], ?_, ?_⟩
    · rw [List.nodup_cons]
      refine ⟨fun hc => ?_, ihn⟩
      exact get_not_mem_eraseIdx pool (drawNat pool.length (u k)) _ hnd hgd (ihm _ hc)
    · intro x hx
      rcases List.mem_cons.mp hx with hx | hx
      · rw [hx]
        exact List.get?_mem hgd
      · exact List.eraseIdx_subset _ _ (ihm x hx)

theorem range_filter_length :
    ∀ (S j : Nat), j < S →
      (((List.range S).filter fun x => x != j).length) + 1 = S := by
  intro S
  induction S with
  | zero => intro j h; omega
  | succ S ih =>
    intro j hj
    rw [List.range_succ, List.filter_append]
    by_cases h : j = S
    · subst h
      have h1 : (List.range j).filter (fun x => x != j) = List.range j :=
        List.filter_eq_self.mpr fun a ha => by
          have := List.mem_range.mp ha
          simp [Nat.ne_of_lt this]
      have h2 : ([j].filter fun x => x != j) = [] := by simp
      rw [h1, h2]
      simp
    · have hj' : j < S := by omega
      have h2 : ([S].filter fun x => x != j) = [S] := by
        simp only [List.filter]
        have : (S != j) = true := by
          simp only [bne_iff_ne, ne_eq]
          omega
        rw [this]
      rw [h2]
      have := ih j hj'
      simp only [List.length_append, List.length_singleton]
      omega

theorem range_filter_mem {S j x : Nat}
    (hx : x ∈ (List.range S).filter fun a => a != j) : x < S ∧ x ≠ j := by
  obtain ⟨h1, h2⟩ := List.mem_filter.mp hx
  exact ⟨List.mem_range.mp h1, by simpa using h2⟩

theorem informantsList_spec (u : Nat → ℚ) (S K : Nat) (hK : K < S) :
    ∀ (ps : List Particle) (j k : Nat), j + ps.length ≤ S →
      ∀ i p, ps.get? i = some p →
        ∃ p', (informantsList u S K ps j k).1.get? i = some p' ∧
          p'.position = p.position ∧ p'.velocity = p.velocity ∧
          p'.fitness_loc = p.fitness_loc ∧
          p'.personal_fittest_loc = p.personal_fittest_loc ∧
          p'.velocity_list = p.velocity_list ∧
          p'.informants.length = K ∧ p'.informants.Nodup ∧
          ∀ x ∈ p'.informants, x < S ∧ x ≠ j + i := by
  intro ps
  induction ps with
  | nil => intro j k _ i p hp; simp at hp
  | cons q ps ih =>
    intro j k hS i p hp
    have hjS : j < S := by
      simp only [List.length_cons] at hS
      omega
    have hpool : K ≤ ((List.range S).filter fun x => x != j).length := by
      have := range_filter_length S j hjS
      omega
    have hnd : ((List.range S).filter fun x => x != j).Nodup :=
      (List.nodup_range S).filter _
    obtain ⟨hcl, hcn, hcm⟩ := choice_spec u K _ k hpool hnd
    cases i with
    | zero =>
      simp only [List.get?] at hp
      injection hp with hp
      subst hp
      refine ⟨_, rfl, rfl, rfl, rfl, rfl, rfl, hcl, hcn, ?_⟩
      intro x hx
      have := range_filter_mem (hcm x hx)
      simpa using this
    | succ i =>
      simp only [List.get?] at hp
      have hS' : (j + 1) + ps.length ≤ S := by
        simp only [List.length_cons] at hS
        omega
      obtain ⟨p', hp', hrest⟩ := ih (j + 1)
        (choiceNoReplace u ((List.range S).filter fun x => x != j) K k).2 hS' i p hp
      refine ⟨p', hp', hrest.1, hrest.2.1, hrest.2.2.1, hrest.2.2.2.1,
        hrest.2.2.2.2.1, hrest.2.2.2.2.2.1, hrest.2.2.2.2.2.2.1, ?_⟩
      intro x hx
      have := hrest.2.2.2.2.2.2.2 x hx
      constructor
      · exact this.1
      · have h2 := this.2
        omega

theorem mkParticles_length (dims : List (ℚ × ℚ)) (u : Nat → ℚ) :
    ∀ (n k : Nat), (mkParticles dims u n k).1.length = n := by
  intro n
  induction n with
  | zero => intro k; rfl
  | succ n ih =>
    intro k
    simp only [mkParticles, List.length_cons]
    rw [ih]

theorem informantsList_length (u : Nat → ℚ) (S K : Nat) :
    ∀ (ps : List Particle) (j k : Nat),
      (informantsList u S K ps j k).1.length = ps.length := by
  intro ps
  induction ps with
  | nil => intro j k; rfl
  | cons q ps ih =>
    intro j k
    simp only [informantsList, List.length_cons]
    rw [ih]

theorem instantiate_informants (st : PSO) (u : Nat → ℚ) (k : Nat)
    (hK : st.num_informants < st.swarm_size) :
    ∀ i p', (instantiate_particles st u k).1.particles.get? i = some p' →
      p'.informants.length = st.num_informants ∧ p'.informants.Nodup ∧
      ∀ x ∈ p'.informants, x < st.swarm_size ∧ x ≠ i := by
  intro i p' hp'
  have hparts : (instantiate_particles st u k).1.particles
      = (informantsList u (mkParticles st.search_dimension u st.swarm_size k).1.length
          st.num_informants (mkParticles st.search_dimension u st.swarm_size k).1 0
          (mkParticles st.search_dimension u st.swarm_size k).2).1 := rfl
  rw [hparts] at hp'
  have hmk := mkParticles_length st.search_dimension u st.swarm_size k
  have hi : i < (mkParticles st.search_dimension u st.swarm_size k).1.length := by
    by_contra hc
    rw [List.get?_eq_none.mpr (by rw [informantsList_length]; omega)] at hp'
    cases hp'
  rcases hq : (mkParticles st.search_dimension u st.swarm_size k).1.get? i with _ | q
  · rw [List.get?_eq_none] at hq
    omega
  · obtain ⟨p'', hp'', hrest⟩ := informantsList_spec u
      (mkParticles st.search_dimension u st.swarm_size k).1.length st.num_informants
      (by omega) (mkParticles st.search_dimension u st.swarm_size k).1 0
      (mkParticles st.search_dimension u st.swarm_size k).2 (by omega) i q hq
    rw [hp'] at hp''
    injection hp'' with hp''
    subst hp''
    refine ⟨hrest.2.2.2.2.2.1, hrest.2.2.2.2.2.2.1, ?_⟩
    intro x hx
    have := hrest.2.2.2.2.2.2.2 x hx
    rw [hmk] at this
    simpa using this

theorem assess_informants_get (fn : List ℚ → ℚ) (st : PSO) (i : Nat) :
    ((pso_assess_fitness fn st).particles.get? i).map Particle.informants
      = (st.particles.get? i).map Particle.informants := by
  rw [assess_particles_eq, List.get?_map]
  cases st.particles.get? i with
  | none => rfl
  | some p => simp [assessTransform_informants]

theorem update_informants_get (st : PSO) (u : Nat → ℚ) (k i : Nat) :
    ((update_particle st u k).1.particles.get? i).map Particle.informants
      = (st.particles.get? i).map Particle.informants := by
  rcases hp : st.particles.get? i with _ | p
  · rw [forall2_get_none (update_particle_rel st u k) hp]
  · obtain ⟨q, hq, hrel⟩ := forall2_get (update_particle_rel st u k) i p hp
    rw [hq]
    simp [hrel.2.2.2.1]

theorem move_informants_get (st : PSO) (u : Nat → ℚ) (k i : Nat) :
    ((move_particles st u k).1.particles.get? i).map Particle.informants
      = (st.particles.get? i).map Particle.informants := by
  rcases hp : st.particles.get? i with _ | p
  · rw [forall2_get_none (move_particles_rel st u k) hp]
  · obtain ⟨q, hq, hrel⟩ := forall2_get (move_particles_rel st u k) i p hp
    rw [hq]
    simp [hrel.2.2.2.1]

theorem iteration_informants_get (fn : List ℚ → ℚ) (u : Nat → ℚ) (st : PSO)
    (k i : Nat) :
    ((iteration fn u st k).1.particles.get? i).map Particle.informants
      = (st.particles.get? i).map Particle.informants := by
  rcases hup : update_particle (pso_assess_fitness fn st) u k with ⟨st2, k2, e2⟩
  have h2 : (st2.particles.get? i).map Particle.informants
      = (st.particles.get? i).map Particle.informants := by
    have h := update_informants_get (pso_assess_fitness fn st) u k i
    rw [hup] at h
    rw [h, assess_informants_get]
  cases e2 with
  | some e => rw [iteration_err fn u st st2 k k2 e hup]; exact h2
  | none => rw [iteration_ok fn u st st2 k k2 hup, move_informants_get]; exact h2

theorem runLoop_informants_get (fn : List ℚ → ℚ) (u : Nat → ℚ) :
    ∀ (n : Nat) (st : PSO) (k i : Nat),
      ((runLoop fn u n st k).1.particles.get? i).map Particle.informants
        = (st.particles.get? i).map Particle.informants := by
  intro n
  induction n with
  | zero => intro st k i; rfl
  | succ n ih =>
    intro st k i
    rcases hit : iteration fn u st k with ⟨st1, k1, e1⟩
    have h1 := iteration_informants_get fn u st k i
    rw [hit] at h1
    cases e1 with
    | some e => rw [runLoop_succ_err fn u n st st1 k k1 e hit]; exact h1
    | none => rw [runLoop_succ_ok fn u n st st1 k k1 hit, ih st1 k1 i, h1]

/-- C7: after particle instantiation (for `num_informants < swarm_size`),
every particle's informant set holds exactly `num_informants` distinct
indices into the swarm, none equal to the particle's own index; and no
phase of the run ever rewrites an informant set — after any number of
iterations, from any state, every particle's informant set is exactly what
it was when the topology was wired. -/
theorem c7_informants (st : PSO) (u : Nat → ℚ) (k : Nat) (fn : List ℚ → ℚ)
    (hK : st.num_informants < st.swarm_size) :
    (∀ i p', (instantiate_particles st u k).1.particles.get? i = some p' →
      p'.informants.length = st.num_informants ∧ p'.informants.Nodup ∧
      ∀ x ∈ p'.informants, x < st.swarm_size ∧ x ≠ i) ∧
    ∀ (st' : PSO) (n k' i : Nat),
      ((runLoop fn u n st' k').1.particles.get? i).map Particle.informants
        = (st'.particles.get? i).map Particle.informants :=
  ⟨instantiate_informants st u k hK,
   fun st' n k' i => runLoop_informants_get fn u n st' k' i⟩

def c7st : PSO :=
  { PSO.init with
      swarm_size := 2
      num_informants := 1
      search_dimension := [(0, 10)]
      search_dimension_set := true }

theorem c7_witness :
    c7st.num_informants < c7st.swarm_size ∧
    (∀ i p', (instantiate_particles c7st (fun _ => 0) 0).1.particles.get? i = some p' →
      p'.informants.length = c7st.num_informants ∧ p'.informants.Nodup ∧
      ∀ x ∈ p'.informants, x < c7st.swarm_size ∧ x ≠ i) :=
  ⟨by decide,
   (c7_informants c7st (fun _ => 0) 0 (fun _ => 0) (by decide)).1⟩

/-! ### Claim C1: the velocity-update formula and the informant scan -/

/-- The pure content of the informant scan: fold the strict-improvement
comparison over the informants' fitness records, starting at the sentinel. -/
def scanFold (acc : FitnessLoc) : List FitnessLoc → FitnessLoc
  | [] => acc
  | fl :: fls => scanFold (if FitnessLoc.gtb fl acc then fl else acc) fls

/-- The `fitness_loc`s of the given informant references, when they all
exist (otherwise the Python scan raises). -/
def informantLocs (parts : List Particle) (js : List Nat) : Option (List FitnessLoc) :=
  js.mapM fun j => (parts.get? j).bind Particle.fitness_loc

theorem scan_eq_fold (parts : List Particle) :
    ∀ (js : List Nat) (fls : List FitnessLoc) (acc : FitnessLoc),
      informantLocs parts js = some fls →
      scanInformants parts js acc = .ok (scanFold acc fls) := by
  intro js
  induction js with
  | nil =>
    intro fls acc h
    simp only [informantLocs, List.mapM_nil] at h
    injection h with h
    subst h
    rfl
  | cons j js ih =>
    intro fls acc h
    simp only [informantLocs, List.mapM_cons] at h
    rcases hj : (parts.get? j).bind Particle.fitness_loc with _ | fl
    · rw [hj] at h
      simp at h
    · rw [hj] at h
      rcases hjs : js.mapM fun j => (parts.get? j).bind Particle.fitness_loc with _ | fls'
      · rw [hjs] at h
        simp at h
      · rw [hjs] at h
        simp only [Option.pure_def, Option.bind_some, Option.bind_eq_bind,
          Option.some_bind] at h
        injection h with h
        subst h
        rcases hq : parts.get? j with _ | q
        · rw [hq] at hj
          simp at hj
        · rw [hq] at hj
          simp only [Option.some_bind] at hj
          simp only [scanInformants, hq, hj]
          exact ih fls' _ hjs

/-- `r` is the first element of `fls` attaining the maximal fitness:
everything before it is strictly less fit, nothing in the list is fitter. -/
def isFirstMax (fls : List FitnessLoc) (r : FitnessLoc) : Prop :=
  ∃ n, fls.get? n = some r ∧
    (∀ m, m < n → ∀ fl, fls.get? m = some fl → fl.fitness < r.fitness) ∧
    ∀ fl ∈ fls, fl.fitness ≤ r.fitness

theorem scanFold_le :
    ∀ (fls : List FitnessLoc) (acc : FitnessLoc),
      (∀ fl ∈ fls, fl.fitness ≤ acc.fitness) → scanFold acc fls = acc := by
  intro fls
  induction fls with
  | nil => intro acc _; rfl
  | cons fl fls ih =>
    intro acc h
    have h1 : FitnessLoc.gtb fl acc = false := by
      rw [FitnessLoc.gtb, decide_eq_false_iff_not]
      exact not_lt.mpr (h fl (List.mem_cons_self _ _))
    simp only [scanFold, h1, Bool.false_eq_true, if_false]
    exact ih acc fun fl' h' => h fl' (List.mem_cons_of_mem _ h')

theorem scanFold_first :
    ∀ (fls : List FitnessLoc) (acc : FitnessLoc),
      (∃ fl ∈ fls, acc.fitness < fl.fitness) →
      isFirstMax fls (scanFold acc fls) ∧ acc.fitness < (scanFold acc fls).fitness := by
  intro fls
  induction fls with
  | nil => intro acc h; simp at h
  | cons fl fls ih =>
    intro acc h
    have hfl_le : fl.fitness ≤ (if FitnessLoc.gtb fl acc then fl else acc).fitness := by
      by_cases hg : FitnessLoc.gtb fl acc
      · simp [hg]
      · rw [Bool.not_eq_true] at hg
        have : ¬ acc.fitness < fl.fitness := by
          rw [FitnessLoc.gtb, decide_eq_false_iff_not] at hg
          exact hg
        simp only [hg, Bool.false_eq_true, if_false]
        exact not_lt.mp this
    have hacc_le : acc.fitness ≤ (if FitnessLoc.gtb fl acc then fl else acc).fitness := by
      by_cases hg : FitnessLoc.gtb fl acc
      · have : acc.fitness < fl.fitness := by
          rw [FitnessLoc.gtb, decide_eq_true_eq] at hg
          exact hg
        simp only [hg, if_true]
        exact le_of_lt this
      · simp [hg]
    have hcons : scanFold acc (fl :: fls)
        = scanFold (if FitnessLoc.gtb fl acc then fl else acc) fls := rfl
    by_cases hex : ∃ fl' ∈ fls, (if FitnessLoc.gtb fl acc then fl else acc).fitness
        < fl'.fitness
    · obtain ⟨⟨n, hn, hlt, hle⟩, hacc'⟩ := ih _ hex
      rw [hcons]
      constructor
      · refine ⟨n + 1, hn, ?_, ?_⟩
        · intro m hm fl' hfl'
          cases m with
          | zero =>
            simp only [List.get?] at hfl'
            injection hfl' with hfl'
            subst hfl'
            exact lt_of_le_of_lt hfl_le hacc'
          | succ m => exact hlt m (Nat.lt_of_succ_lt_succ hm) fl' hfl'
        · intro fl' hfl'
          rcases List.mem_cons.mp hfl' with h1 | h1
          · subst h1
            exact le_of_lt (lt_of_le_of_lt hfl_le hacc')
          · exact hle fl' h1
      · exact lt_of_le_of_lt hacc_le hacc'
    · push_neg at hex
      have hfold : scanFold (if FitnessLoc.gtb fl acc then fl else acc) fls
          = (if FitnessLoc.gtb fl acc then fl else acc) := scanFold_le fls _ hex
      have hg : FitnessLoc.gtb fl acc = true := by
        obtain ⟨fl0, hfl0, hlt0⟩ := h
        rcases List.mem_cons.mp hfl0 with h1 | h1
        · subst h1
          rw [FitnessLoc.gtb, decide_eq_true_eq]
          exact hlt0
        · by_cases hgg : FitnessLoc.gtb fl acc
          · exact hgg
          · exfalso
            rw [Bool.not_eq_true] at hgg
            have h2 := hex fl0 h1
            rw [hgg] at h2
            simp only [Bool.false_eq_true, if_false] at h2
            exact absurd hlt0 (not_lt.mpr h2)
      have haf : acc.fitness < fl.fitness := by
        rw [FitnessLoc.gtb, decide_eq_true_eq] at hg
        exact hg
      have hres : scanFold acc (fl :: fls) = fl := by
        rw [hcons, if_pos hg]
        rw [if_pos hg] at hfold
        exact hfold
      rw [hres]
      refine ⟨⟨0, rfl, ?_, ?_⟩, haf⟩
      · intro m hm fl' hfl'
        omega
      · intro fl' hfl'
        rcases List.mem_cons.mp hfl' with h1 | h1
        · rw [h1]
        · have := hex fl' h1
          rw [if_pos hg] at this
          exact this

theorem informantLocs_congr (parts parts' : List Particle)
    (h : ∀ j, (parts.get? j).bind Particle.fitness_loc
      = (parts'.get? j).bind Particle.fitness_loc) :
    ∀ js, informantLocs parts js = informantLocs parts' js := by
  intro js
  induction js with
  | nil => rfl
  | cons j js ih =>
    simp only [informantLocs, List.mapM_cons] at ih ⊢
    rw [h j, ih]

theorem get_bind_fitness_withHist (done rest : List Particle) (p : Particle)
    (v : List ℚ) (j : Nat) :
    (((done ++ withHist p v :: rest).get? j).bind Particle.fitness_loc)
      = (((done ++ p :: rest).get? j).bind Particle.fitness_loc) := by
  rcases Nat.lt_trichotomy j done.length with h | h | h
  · rw [List.get?_append h, List.get?_append h]
  · subst h
    have h1 : (done ++ withHist p v :: rest).get? done.length = some (withHist p v) := by
      rw [show done.length = done.length + 0 from rfl, get?_append_offset]
      rfl
    have h2 : (done ++ p :: rest).get? done.length = some p := by
      rw [show done.length = done.length + 0 from rfl, get?_append_offset]
      rfl
    rw [h1, h2]
    rfl
  · rw [List.get?_append_right (Nat.le_of_lt h), List.get?_append_right (Nat.le_of_lt h)]
    rcases hd : j - done.length with _ | m
    · omega
    · rfl

/-- One successful pass of the per-dimension velocity loop: the counter
advances by exactly three fresh draws per dimension, and dimension `j` is
set to the textbook update computed from the draws at stream positions
`k + 3j`, `k + 3j + 1`, `k + 3j + 2`. -/
theorem velLoop_formula (cfg : PSO) (p : Particle) (pb inf gb : FitnessLoc)
    (u : Nat → ℚ) (v0 : List ℚ) (k : Nat)
    (hv : cfg.search_dimension.length ≤ v0.length)
    (hpb : cfg.search_dimension.length ≤ pb.location.length)
    (hinf : cfg.search_dimension.length ≤ inf.location.length)
    (hgb : cfg.search_dimension.length ≤ gb.location.length)
    (hpos : cfg.search_dimension.length ≤ p.position.length) :
    ∃ v1, velLoop cfg p pb inf gb u v0 k
        = (v1, k + 3 * cfg.search_dimension.length, none) ∧
      ∀ j, j < cfg.search_dimension.length →
        ∀ vj pbj infj gbj posj, v0.get? j = some vj →
          pb.location.get? j = some pbj → inf.location.get? j = some infj →
          gb.location.get? j = some gbj → p.position.get? j = some posj →
          v1.get? j = some (cfg.alpha * vj
            + uniform 0 cfg.beta (u (k + 3 * j)) * (pbj - posj)
            + uniform 0 cfg.gamma (u (k + 3 * j + 1)) * (infj - posj)
            + uniform 0 cfg.delta (u (k + 3 * j + 2)) * (gbj - posj)) := by
  suffices haux : ∀ n, n ≤ cfg.search_dimension.length →
      ∃ v1, (List.range n).foldl (velStep cfg p pb inf gb u) (v0, k, none)
          = (v1, k + 3 * n, none) ∧
        (∀ j, n ≤ j → v1.get? j = v0.get? j) ∧
        ∀ j, j < n →
          ∀ vj pbj infj gbj posj, v0.get? j = some vj →
            pb.location.get? j = some pbj → inf.location.get? j = some infj →
            gb.location.get? j = some gbj → p.position.get? j = some posj →
            v1.get? j = some (cfg.alpha * vj
              + uniform 0 cfg.beta (u (k + 3 * j)) * (pbj - posj)
              + uniform 0 cfg.gamma (u (k + 3 * j + 1)) * (infj - posj)
              + uniform 0 cfg.delta (u (k + 3 * j + 2)) * (gbj - posj)) by
    obtain ⟨v1, h1, _, h3⟩ := haux cfg.search_dimension.length le_rfl
    exact ⟨v1, h1, h3⟩
  intro n
  induction n with
  | zero => exact fun _ => ⟨v0, by simp, fun j _ => rfl, fun j hj => by omega⟩
  | succ n ih =>
    intro hn
    obtain ⟨vn, h1, h2, h3⟩ := ih (Nat.le_of_succ_le hn)
    have hnd : n < cfg.search_dimension.length := hn
    rcases hvn : v0.get? n with _ | vnval
    · rw [List.get?_eq_none] at hvn
      omega
    rcases hpbn : pb.location.get? n with _ | pbn
    · rw [List.get?_eq_none] at hpbn
      omega
    rcases hinfn : inf.location.get? n with _ | infn
    · rw [List.get?_eq_none] at hinfn
      omega
    rcases hgbn : gb.location.get? n with _ | gbn
    · rw [List.get?_eq_none] at hgbn
      omega
    rcases hposn : p.position.get? n with _ | posn
    · rw [List.get?_eq_none] at hposn
      omega
    have hvnn : vn.get? n = some vnval := by rw [h2 n le_rfl, hvn]
    have hstep : velStep cfg p pb inf gb u (vn, k + 3 * n, none) n
        = (vn.set n (cfg.alpha * vnval
            + uniform 0 cfg.beta (u (k + 3 * n)) * (pbn - posn)
            + uniform 0 cfg.gamma (u (k + 3 * n + 1)) * (infn - posn)
            + uniform 0 cfg.delta (u (k + 3 * n + 2)) * (gbn - posn)),
           k + 3 * n + 3, none) := by
      simp only [velStep]
      rw [hvnn, hpbn, hinfn, hgbn, hposn]
    refine ⟨vn.set n (cfg.alpha * vnval
        + uniform 0 cfg.beta (u (k + 3 * n)) * (pbn - posn)
        + uniform 0 cfg.gamma (u (k + 3 * n + 1)) * (infn - posn)
        + uniform 0 cfg.delta (u (k + 3 * n + 2)) * (gbn - posn)), ?_, ?_, ?_⟩
    · rw [List.range_succ, List.foldl_concat, h1, hstep]
      have : k + 3 * n + 3 = k + 3 * (n + 1) := by ring
      rw [this]
    · intro j hj
      rw [List.get?_set_ne _ _ (by omega), h2 j (by omega)]
    · intro j hj vj pbj infj gbj posj hvj hpbj hinfj hgbj hposj
      rcases Nat.lt_succ_iff_lt_or_eq.mp hj with hj' | hj'
      · rw [List.get?_set_ne _ _ (by omega)]
        exact h3 j hj' vj pbj infj gbj posj hvj hpbj hinfj hgbj hposj
      · subst hj'
        have hlen : j < vn.length := by
          have := velLoop_foldl_length cfg p pb inf gb u (List.range j) (v0, k, none)
          rw [h1] at this
          simp only at this
          omega
        rw [List.get?_set_eq, hvnn]
        simp only [Option.map_some]
        rw [hvn] at hvj
        injection hvj with hvj
        rw [hpbn] at hpbj
        injection hpbj with hpbj
        rw [hinfn] at hinfj
        injection hinfj with hinfj
        rw [hgbn] at hgbj
        injection hgbj with hgbj
        rw [hposn] at hposj
        injection hposj with hposj
        rw [hvj, hpbj, hinfj, hgbj, hposj]

theorem updateList_get_done (cfg : PSO) (u : Nat → ℚ) (rest done : List Particle)
    (k j : Nat) (hj : j < done.length) :
    (updateList cfg u done rest k).1.get? j = done.get? j := by
  obtain ⟨rest', h1, _⟩ := updateList_shape cfg u rest done k
  rw [h1, List.get?_append hj]

/-- C1 (amended): for a non-frozen particle anywhere in the velocity-update
sweep, *provided at least one informant's recorded fitness is strictly
above the scan's sentinel value `-999999.0`*, the phase replaces the
particle's velocity so that dimension `j` becomes
`alpha*v[j] + b_j*(personal_best[j] - pos[j]) + c_j*(informant_best[j] -
pos[j]) + d_j*(global_best[j] - pos[j])`, where `b_j, c_j, d_j` are the
uniform draws on `(0, beta)`, `(0, gamma)`, `(0, delta)` taken from three
fresh consecutive stream positions per dimension (positions `k + 3j`,
`k + 3j + 1`, `k + 3j + 2` of the run's single stream, so no draw is
shared across dimensions, particles or iterations), and `informant_best`
is the first informant `fitness_loc` of maximal fitness (linear scan, ties
keep the first found).  Without the sentinel proviso the claim is false:
if every informant's fitness is `≤ -999999.0` the scan returns the
sentinel itself, which is not a member of the informant set and whose
empty location vector crashes the update (see the counterexample). -/
theorem c1_velocity_update (cfg : PSO) (u : Nat → ℚ) (done rest : List Particle)
    (p : Particle) (k : Nat) (pb gb : FitnessLoc) (fls : List FitnessLoc)
    (hf : p.isFrozen = false)
    (hpb : p.personal_fittest_loc = some pb)
    (hgb : cfg.best = some gb)
    (hfls : informantLocs (done ++ p :: rest) p.informants = some fls)
    (hbeats : ∃ fl ∈ fls, (-999999 : ℚ) < fl.fitness)
    (hlv : cfg.search_dimension.length ≤ p.velocity.length)
    (hlpb : cfg.search_dimension.length ≤ pb.location.length)
    (hlgb : cfg.search_dimension.length ≤ gb.location.length)
    (hlpos : cfg.search_dimension.length ≤ p.position.length)
    (hlfls : ∀ fl ∈ fls, cfg.search_dimension.length ≤ fl.location.length) :
    ∃ inf v1,
      isFirstMax fls inf ∧
      (updateList cfg u done (p :: rest) k).1.get? done.length
        = some (withNewVel p v1) ∧
      ∀ j, j < cfg.search_dimension.length →
        ∀ vj pbj infj gbj posj, p.velocity.get? j = some vj →
          pb.location.get? j = some pbj → inf.location.get? j = some infj →
          gb.location.get? j = some gbj → p.position.get? j = some posj →
          v1.get? j = some (cfg.alpha * vj
            + uniform 0 cfg.beta (u (k + 3 * j)) * (pbj - posj)
            + uniform 0 cfg.gamma (u (k + 3 * j + 1)) * (infj - posj)
            + uniform 0 cfg.delta (u (k + 3 * j + 2)) * (gbj - posj)) := by
  have hbeats' : ∃ fl ∈ fls, (⟨[], -999999⟩ : FitnessLoc).fitness < fl.fitness := hbeats
  obtain ⟨hfm, _⟩ := scanFold_first fls ⟨[], -999999⟩ hbeats'
  have hmem : scanFold ⟨[], -999999⟩ fls ∈ fls := by
    obtain ⟨n, hn, _, _⟩ := hfm
    exact List.get?_mem hn
  have hlinf : cfg.search_dimension.length
      ≤ (scanFold ⟨[], -999999⟩ fls).location.length := hlfls _ hmem
  have hfls' : informantLocs (done ++ withHist p p.velocity :: rest) p.informants
      = some fls := by
    rw [informantLocs_congr (done ++ withHist p p.velocity :: rest) (done ++ p :: rest)
      (get_bind_fitness_withHist done rest p p.velocity) p.informants]
    exact hfls
  have hscan : scanInformants (done ++ withHist p p.velocity :: rest) p.informants
      ⟨[], -999999⟩ = .ok (scanFold ⟨[], -999999⟩ fls) :=
    scan_eq_fold _ p.informants fls _ hfls'
  obtain ⟨v1, hvl, hform⟩ := velLoop_formula cfg p pb (scanFold ⟨[], -999999⟩ fls) gb u
    p.velocity k hlv hlpb hlinf hlgb hlpos
  refine ⟨scanFold ⟨[], -999999⟩ fls, v1, hfm, ?_, hform⟩
  rw [updateList_vel_ok cfg u done rest p k (k + 3 * cfg.search_dimension.length)
    (scanFold ⟨[], -999999⟩ fls) pb gb v1 hf hscan hpb hgb hvl]
  rw [updateList_get_done cfg u rest (done ++ [withNewVel p v1]) _ done.length (by simp)]
  exact List.get?_concat_length done (withNewVel p v1)

def c1xp0 : Particle :=
  { position := [0], velocity := [1], fitness_loc := none,
    personal_fittest_loc := none, informants := [1], velocity_list := [] }

def c1xp1 : Particle :=
  { position := [2], velocity := [1], fitness_loc := none,
    personal_fittest_loc := none, informants := [0], velocity_list := [] }

def c1xst : PSO :=
  { PSO.init with
      swarm_size := 2
      search_dimension := [(0, 10)]
      search_dimension_set := true
      best := some ⟨[], -9999⟩
      particles := [c1xp0, c1xp1] }

/-- C1 counterexample: with a fitness function returning `-1000000`
(legitimately below the scan's sentinel `-999999.0`), the informant scan
returns the sentinel `FitnessLoc([], -999999.0)` — not the fittest member
of the informant set, whose recorded fitness is `-1000000` — and the
velocity update then crashes with an IndexError on the sentinel's empty
location vector instead of setting the claimed formula: after the
iteration the particle's velocity is still `[1]` and the run has aborted. -/
theorem c1_counterexample :
    (runLoop (fun _ => -1000000) (fun _ => 0) 1 c1xst 0).2.2 = some .indexError ∧
    ((runLoop (fun _ => -1000000) (fun _ => 0) 1 c1xst 0).1.particles.get? 0).map
      Particle.velocity = some [1] ∧
    scanInformants (pso_assess_fitness (fun _ => -1000000) c1xst).particles [1]
      ⟨[], -999999⟩ = .ok ⟨[], -999999⟩ ∧
    ((pso_assess_fitness (fun _ => -1000000) c1xst).particles.get? 1).bind
      Particle.fitness_loc = some ⟨[2], -1000000⟩ ∧
    (⟨[], -999999⟩ : FitnessLoc) ≠ ⟨[2], -1000000⟩ := by
  refine ⟨by decide, by decide, by rfl, by decide, by decide⟩

def c1p : Particle :=
  { position := [5], velocity := [1], fitness_loc := some ⟨[5], 2⟩,
    personal_fittest_loc := some ⟨[8], 2⟩, informants := [1], velocity_list := [] }

def c1q : Particle :=
  { position := [9], velocity := [1], fitness_loc := some ⟨[9], 4⟩,
    personal_fittest_loc := some ⟨[9], 4⟩, informants := [0], velocity_list := [] }

def c1wst : PSO :=
  { PSO.init with
      swarm_size := 2
      alpha := 2
      beta := 0
      gamma := 0
      delta := 0
      search_dimension := [(0, 10)]
      search_dimension_set := true
      best := some ⟨[7], 3⟩
      particles := [c1p, c1q] }

theorem c1_witness :
    c1p.isFrozen = false ∧
    informantLocs [c1p, c1q] c1p.informants = some [⟨[9], 4⟩] ∧
    (∃ fl ∈ [(⟨[9], 4⟩ : FitnessLoc)], (-999999 : ℚ) < fl.fitness) ∧
    ∃ inf v1, isFirstMax [⟨[9], 4⟩] inf ∧
      (updateList c1wst (fun _ => 0) [] [c1p, c1q] 0).1.get? 0
        = some (withNewVel c1p v1) ∧
      ∀ j, j < c1wst.search_dimension.length →
        ∀ vj pbj infj gbj posj, c1p.velocity.get? j = some vj →
          ([8] : List ℚ).get? j = some pbj →
          inf.location.get? j = some infj →
          ([7] : List ℚ).get? j = some gbj →
          c1p.position.get? j = some posj →
          v1.get? j = some (c1wst.alpha * vj
            + uniform 0 c1wst.beta ((fun _ => (0:ℚ)) (0 + 3 * j)) * (pbj - posj)
            + uniform 0 c1wst.gamma ((fun _ => (0:ℚ)) (0 + 3 * j + 1)) * (infj - posj)
            + uniform 0 c1wst.delta ((fun _ => (0:ℚ)) (0 + 3 * j + 2)) * (gbj - posj)) :=
  ⟨by decide, by decide, ⟨⟨[9], 4⟩, by decide, by decide⟩,
   c1_velocity_update c1wst (fun _ => 0) [] [c1q] c1p 0 ⟨[8], 2⟩ ⟨[7], 3⟩ [⟨[9], 4⟩]
     (by decide) (by decide) (by decide) (by decide)
     ⟨⟨[9], 4⟩, by decide, by decide⟩ (by decide) (by decide) (by decide)
     (by decide) (by decide)⟩

/-! ### Claim C10: the default bound `(1, -1)` is inverted -/

theorem inBoundsAt_default_false (x : ℚ) : inBoundsAt (1, -1) x = false := by
  by_cases h : (1 : ℚ) ≤ x
  · have h2 : ¬ x ≤ (-1 : ℚ) := by
      intro hc
      linarith
    simp [inBoundsAt, h, h2]
  · simp [inBoundsAt, h]

/-- Under RANDOMREINIT with every dimension failing the bounds test for
every value, the boundary loop resamples every dimension: one fresh draw
per dimension, in order. -/
theorem moveLoop_rr_all_oob (cfg : PSO) (p : Particle) (u : Nat → ℚ)
    (hpol : cfg.boundary_policy = .RANDOMREINIT)
    (hoob : ∀ d ∈ cfg.search_dimension, ∀ x : ℚ, inBoundsAt d x = false) :
    ∀ (ds : List (ℚ × ℚ)) (index : Nat) (temp : List ℚ) (k : Nat),
      (∀ m, ds.get? m = cfg.search_dimension.get? (index + m)) →
      (∀ m, m < ds.length → index + m < temp.length) →
      ∃ t1, moveLoop cfg p u ds index temp k = (t1, k + ds.length, none) ∧
        t1.length = temp.length ∧
        (∀ j, j < index → t1.get? j = temp.get? j) ∧
        ∀ m d, ds.get? m = some d →
          t1.get? (index + m) = some (uniform d.1 d.2 (u (k + m))) := by
  intro ds
  induction ds with
  | nil =>
    intro index temp k _ _
    exact ⟨temp, by simp [moveLoop_nil], rfl, fun j _ => rfl, fun m d hm => by simp at hm⟩
  | cons d0 ds ih =>
    intro index temp k hds hlen
    have hd0 : cfg.search_dimension.get? index = some d0 := by
      have := hds 0
      simpa using this.symm
    have hmem : d0 ∈ cfg.search_dimension := List.get?_mem hd0
    have hidx : index < temp.length := by
      have := hlen 0 (Nat.succ_pos _)
      simpa using this
    rcases hget : temp.get? index with _ | t
    · rw [List.get?_eq_none] at hget
      omega
    · have hin : inBoundsAt d0 t = false := hoob d0 hmem t
      rw [moveLoop_cons_rr cfg p u d0 ds index temp k t hget hin hpol]
      have hds' : ∀ m, ds.get? m = cfg.search_dimension.get? (index + 1 + m) := by
        intro m
        have := hds (m + 1)
        simpa [Nat.add_assoc, Nat.add_comm 1 m] using this
      have hlen' : ∀ m, m < ds.length →
          index + 1 + m < (temp.set index (uniform d0.1 d0.2 (u k))).length := by
        intro m hm
        rw [List.length_set]
        have := hlen (m + 1) (Nat.succ_lt_succ hm)
        omega
      obtain ⟨t1, h1, h2, h3, h4⟩ := ih (index + 1)
        (temp.set index (uniform d0.1 d0.2 (u k))) (k + 1) hds' hlen'
      refine ⟨t1, ?_, ?_, ?_, ?_⟩
      · rw [h1]
        simp only [List.length_cons]
        have : k + 1 + ds.length = k + (ds.length + 1) := by omega
        rw [this]
      · rw [h2, List.length_set]
      · intro j hj
        rw [h3 j (by omega), List.get?_set_ne _ _ (by omega)]
      · intro m d hm
        cases m with
        | zero =>
          simp only [List.get?] at hm
          injection hm with hm
          subst hm
          rw [Nat.add_zero, h3 index (Nat.lt_succ_self _), List.get?_set_eq, hget]
          rfl
        | succ m =>
          have := h4 m d hm
          rw [show index + (m + 1) = index + 1 + m by omega,
            show k + (m + 1) = k + 1 + m by omega]
          exact this

/-- Under REFUSE with every dimension failing the bounds test for every
value, the boundary loop copies the particle's current position into every
dimension of the candidate, consuming no randomness. -/
theorem moveLoop_refuse_all_oob (cfg : PSO) (p : Particle) (u : Nat → ℚ)
    (hpol : cfg.boundary_policy = .REFUSE)
    (hoob : ∀ d ∈ cfg.search_dimension, ∀ x : ℚ, inBoundsAt d x = false) :
    ∀ (ds : List (ℚ × ℚ)) (index : Nat) (temp : List ℚ) (k : Nat),
      (∀ m, ds.get? m = cfg.search_dimension.get? (index + m)) →
      (∀ m, m < ds.length → index + m < temp.length) →
      (∀ m, m < ds.length → index + m < p.position.length) →
      ∃ t1, moveLoop cfg p u ds index temp k = (t1, k, none) ∧
        t1.length = temp.length ∧
        (∀ j, j < index → t1.get? j = temp.get? j) ∧
        ∀ m d, ds.get? m = some d →
          t1.get? (index + m) = p.position.get? (index + m) := by
  intro ds
  induction ds with
  | nil =>
    intro index temp k _ _ _
    exact ⟨temp, by simp [moveLoop_nil], rfl, fun j _ => rfl, fun m d hm => by simp at hm⟩
  | cons d0 ds ih =>
    intro index temp k hds hlen hplen
    have hd0 : cfg.search_dimension.get? index = some d0 := by
      have := hds 0
      simpa using this.symm
    have hmem : d0 ∈ cfg.search_dimension := List.get?_mem hd0
    have hidx : index < temp.length := by
      have := hlen 0 (Nat.succ_pos _)
      simpa using this
    have hpidx : index < p.position.length := by
      have := hplen 0 (Nat.succ_pos _)
      simpa using this
    rcases hget : temp.get? index with _ | t
    · rw [List.get?_eq_none] at hget
      omega
    rcases hpi : p.position.get? index with _ | pi
    · rw [List.get?_eq_none] at hpi
      omega
    have hin : inBoundsAt d0 t = false := hoob d0 hmem t
    rw [moveLoop_cons_refuse cfg p u d0 ds index temp k t pi hget hin hpol hpi]
    have hds' : ∀ m, ds.get? m = cfg.search_dimension.get? (index + 1 + m) := by
      intro m
      have := hds (m + 1)
      simpa [Nat.add_assoc, Nat.add_comm 1 m] using this
    have hlen' : ∀ m, m < ds.length → index + 1 + m < (temp.set index pi).length := by
      intro m hm
      rw [List.length_set]
      have := hlen (m + 1) (Nat.succ_lt_succ hm)
      omega
    have hplen' : ∀ m, m < ds.length → index + 1 + m < p.position.length := by
      intro m hm
      have := hplen (m + 1) (Nat.succ_lt_succ hm)
      omega
    obtain ⟨t1, h1, h2, h3, h4⟩ := ih (index + 1) (temp.set index pi) k hds' hlen' hplen'
    refine ⟨t1, h1, by rw [h2, List.length_set], ?_, ?_⟩
    · intro j hj
      rw [h3 j (by omega), List.get?_set_ne _ _ (by omega)]
    · intro m d hm
      cases m with
      | zero =>
        simp only [List.get?] at hm
        injection hm with hm
        rw [Nat.add_zero, h3 index (Nat.lt_succ_self _), List.get?_set_eq, hget, hpi]
        rfl
      | succ m =>
        have := h4 m d hm
        rw [show index + (m + 1) = index + 1 + m by omega]
        exact this

theorem moveList_refuse_all_oob (cfg : PSO) (u : Nat → ℚ)
    (hpol : cfg.boundary_policy = .REFUSE)
    (hoob : ∀ d ∈ cfg.search_dimension, ∀ x : ℚ, inBoundsAt d x = false) :
    ∀ (rest done : List Particle) (k : Nat),
      (∀ p ∈ rest, p.position.length = cfg.search_dimension.length ∧
        p.velocity.length = cfg.search_dimension.length) →
      moveList cfg u done rest k = (done ++ rest, k, none) := by
  intro rest
  induction rest with
  | nil => intro done k _; simp [moveList_nil]
  | cons p rest ih =>
    intro done k hrest
    have hp := hrest p (List.mem_cons_self _ _)
    have htail : ∀ q ∈ rest, q.position.length = cfg.search_dimension.length ∧
        q.velocity.length = cfg.search_dimension.length :=
      fun q hq => hrest q (List.mem_cons_of_mem _ hq)
    by_cases hf : p.isFrozen
    · rw [moveList_frozen cfg u done rest p k hf, ih (done ++ [p]) k htail]
      simp
    · rw [Bool.not_eq_true] at hf
      have htlen : (tempPos cfg.epsilon p).length = cfg.search_dimension.length := by
        rw [tempPos, List.length_zipWith, hp.1, hp.2]
        simp
      obtain ⟨t1, h1, h2, _, h4⟩ := moveLoop_refuse_all_oob cfg p u hpol hoob
        cfg.search_dimension 0 (tempPos cfg.epsilon p) k (fun m => by simp)
        (fun m hm => by omega) (fun m hm => by omega)
      have ht1 : t1 = p.position := by
        apply List.ext
        intro n
        by_cases hn : n < cfg.search_dimension.length
        · rcases hd : cfg.search_dimension.get? n with _ | d
          · rw [List.get?_eq_none] at hd
            omega
          · have := h4 n d hd
            rw [Nat.zero_add] at this
            exact this
        · rw [List.get?_eq_none.mpr (by rw [h2, htlen]; omega),
            List.get?_eq_none.mpr (by rw [hp.1]; omega)]
      rw [moveList_ok cfg u done rest p k k t1 hf h1, ht1]
      have : atPos p p.position = p := rfl
      rw [this, ih (done ++ [p]) k htail]
      simp

/-- The conditions under which a REFUSE move phase with inverted bounds is
a no-op: every dimension rejects every value, so every dimension of every
moving particle is reset to its current position. -/
def refuseOOBCond (st : PSO) : Prop :=
  st.boundary_policy = .REFUSE ∧ swarmWF st = true ∧
  ∀ d ∈ st.search_dimension, ∀ x : ℚ, inBoundsAt d x = false

theorem move_particles_refuse_all_oob (st : PSO) (u : Nat → ℚ) (k : Nat)
    (hc : refuseOOBCond st) : move_particles st u k = (st, k, none) := by
  obtain ⟨hpol, hwf, hoob⟩ := hc
  have hml := moveList_refuse_all_oob st u hpol hoob st.particles [] k
    (fun p hp => swarmWF_mem hwf hp)
  show ((⟨st.swarm_size, st.num_informants, st.boundary, st.alpha, st.beta,
    st.gamma, st.delta, st.epsilon, st.boundary_policy, st.search_dimension,
    st.search_dimension_set, st.best, st.previous_best,
    (moveList st u [] st.particles k).1⟩ : PSO), (moveList st u [] st.particles k).2)
    = (st, k, none)
  rw [hml]
  rfl

theorem refuseOOBCond_assess (fn : List ℚ → ℚ) (st : PSO) (hc : refuseOOBCond st) :
    refuseOOBCond (pso_assess_fitness fn st) :=
  ⟨hc.1, assess_swarmWF fn st hc.2.1, hc.2.2⟩

theorem refuseOOBCond_update (st : PSO) (u : Nat → ℚ) (k : Nat)
    (hc : refuseOOBCond st) : refuseOOBCond (update_particle st u k).1 :=
  ⟨hc.1, update_swarmWF st u k hc.2.1, hc.2.2⟩

theorem iteration_refuse_all_oob (fn : List ℚ → ℚ) (u : Nat → ℚ) (st : PSO) (k : Nat)
    (hc : refuseOOBCond st) :
    (∀ i, ((iteration fn u st k).1.particles.get? i).map Particle.position
      = (st.particles.get? i).map Particle.position) ∧
    refuseOOBCond (iteration fn u st k).1 := by
  have hc1 := refuseOOBCond_assess fn st hc
  rcases hup : update_particle (pso_assess_fitness fn st) u k with ⟨st2, k2, e2⟩
  have hc2 : refuseOOBCond st2 := by
    have := refuseOOBCond_update (pso_assess_fitness fn st) u k hc1
    rw [hup] at this
    exact this
  have hpos2 : ∀ i, (st2.particles.get? i).map Particle.position
      = (st.particles.get? i).map Particle.position := by
    intro i
    have h1 := update_positions (pso_assess_fitness fn st) u k i
    rw [hup] at h1
    rw [h1, assess_positions]
  cases e2 with
  | some e =>
    rw [iteration_err fn u st st2 k k2 e hup]
    exact ⟨hpos2, hc2⟩
  | none =>
    rw [iteration_ok fn u st st2 k k2 hup, move_particles_refuse_all_oob st2 u k2 hc2]
    exact ⟨hpos2, hc2⟩

theorem runLoop_refuse_all_oob (fn : List ℚ → ℚ) (u : Nat → ℚ) :
    ∀ (n : Nat) (st : PSO) (k : Nat), refuseOOBCond st →
      ∀ i, ((runLoop fn u n st k).1.particles.get? i).map Particle.position
        = (st.particles.get? i).map Particle.position := by
  intro n
  induction n with
  | zero => intro st k _ i; rfl
  | succ n ih =>
    intro st k hc i
    rcases hit : iteration fn u st k with ⟨st1, k1, e1⟩
    have h1 := iteration_refuse_all_oob fn u st k hc
    rw [hit] at h1
    cases e1 with
    | some e => rw [runLoop_succ_err fn u n st st1 k k1 e hit]; exact h1.1 i
    | none =>
      rw [runLoop_succ_ok fn u n st st1 k k1 hit]
      rw [ih st1 k1 h1.2 i, h1.1 i]

/-- C10: with search dimensions set from an integer count and the default
bound `(1, -1)`, every bound pair is inverted (`low > high`), so the
in-bounds test `d[0] ≤ x ≤ d[1]` rejects every value; consequently, on
every move, every dimension of every non-frozen particle is treated as
out of bounds — under RANDOMREINIT each dimension of the moved particle is
freshly resampled by `uniform(1, -1)` (one draw per dimension, every
sweep), and under REFUSE the move phase is the identity and no particle's
position ever changes during the run. -/
theorem c10_default_bounds :
    (∀ (st : PSO) (n : Nat), st.boundary = (1, -1) →
      (set_search_dimensions_int st n).search_dimension
        = List.replicate n (1, -1) ∧
      ∀ d ∈ (set_search_dimensions_int st n).search_dimension, d.2 < d.1) ∧
    (∀ x : ℚ, inBoundsAt (1, -1) x = false) ∧
    (∀ (cfg : PSO) (u : Nat → ℚ) (done rest : List Particle) (p : Particle) (k : Nat),
      cfg.boundary_policy = .RANDOMREINIT →
      (∀ d ∈ cfg.search_dimension, d = (1, -1)) →
      p.isFrozen = false →
      cfg.search_dimension.length ≤ p.position.length →
      cfg.search_dimension.length ≤ p.velocity.length →
      ∃ t1, moveList cfg u done (p :: rest) k
          = moveList cfg u (done ++ [atPos p t1]) rest
              (k + cfg.search_dimension.length) ∧
        ∀ j, j < cfg.search_dimension.length →
          t1.get? j = some (uniform 1 (-1) (u (k + j)))) ∧
    (∀ (st : PSO) (u : Nat → ℚ) (fn : List ℚ → ℚ),
      st.boundary_policy = .REFUSE →
      (∀ d ∈ st.search_dimension, d = (1, -1)) →
      swarmWF st = true →
      (∀ k, move_particles st u k = (st, k, none)) ∧
      ∀ (n k i : Nat),
        ((runLoop fn u n st k).1.particles.get? i).map Particle.position
          = (st.particles.get? i).map Particle.position) := by
  refine ⟨?_, inBoundsAt_default_false, ?_, ?_⟩
  · intro st n hb
    constructor
    · rw [set_search_dimensions_int, hb]
    · intro d hd
      rw [set_search_dimensions_int, hb] at hd
      simp only [List.mem_replicate] at hd
      rw [hd.2]
      norm_num
  · intro cfg u done rest p k hpol hdims hf hlp hlv
    have hoob : ∀ d ∈ cfg.search_dimension, ∀ x : ℚ, inBoundsAt d x = false := by
      intro d hd x
      rw [hdims d hd]
      exact inBoundsAt_default_false x
    have htlen : cfg.search_dimension.length ≤ (tempPos cfg.epsilon p).length := by
      rw [tempPos, List.length_zipWith]
      omega
    obtain ⟨t1, h1, _, _, h4⟩ := moveLoop_rr_all_oob cfg p u hpol hoob
      cfg.search_dimension 0 (tempPos cfg.epsilon p) k (fun m => by simp)
      (fun m hm => by omega)
    refine ⟨t1, ?_, ?_⟩
    · exact moveList_ok cfg u done rest p k (k + cfg.search_dimension.length) t1 hf h1
    · intro j hj
      rcases hd : cfg.search_dimension.get? j with _ | d
      · rw [List.get?_eq_none] at hd
        omega
      · have := h4 j d hd
        rw [Nat.zero_add] at this
        rw [this, hdims d (List.get?_mem hd)]
  · intro st u fn hpol hdims hwf
    have hoob : ∀ d ∈ st.search_dimension, ∀ x : ℚ, inBoundsAt d x = false := by
      intro d hd x
      rw [hdims d hd]
      exact inBoundsAt_default_false x
    exact ⟨fun k => move_particles_refuse_all_oob st u k ⟨hpol, hwf, hoob⟩,
      fun n k i => runLoop_refuse_all_oob fn u n st k ⟨hpol, hwf, hoob⟩ i⟩

def c10st : PSO :=
  { PSO.init with
      boundary_policy := .REFUSE
      search_dimension := [(1, -1)]
      search_dimension_set := true
      best := some ⟨[0], 0⟩
      particles := [c8p] }

theorem c10_witness :
    (set_search_dimensions_int PSO.init 2).search_dimension
      = List.replicate 2 (1, -1) ∧
    inBoundsAt (1, -1) 0 = false ∧
    c10st.boundary_policy = .REFUSE ∧
    move_particles c10st (fun _ => 0) 0 = (c10st, 0, none) :=
  ⟨(c10_default_bounds.1 PSO.init 2 (by decide)).1,
   c10_default_bounds.2.1 0,
   by decide,
   (c10_default_bounds.2.2.2 c10st (fun _ => 0) (fun _ => 0) (by decide)
     (by decide) (by decide)).1 0⟩

theorem c9_witness :
    c9st.particles.get? 0 = some wLive ∧
    ∃ q, (update_particle c9st (fun _ => 0) 0).1.particles.get? 0 = some q ∧
      q.position = wLive.position ∧ q.fitness_loc = wLive.fitness_loc ∧
      q.personal_fittest_loc = wLive.personal_fittest_loc ∧
      q.informants = wLive.informants :=
  ⟨by decide, (c9_update_frame c9st (fun _ => 0) 0).1 0 wLive (by decide)⟩

end PSwarm
